import Mathlib

/-! # Event flag parsing (`pkg/cmd/flags/event.go`)

A shallow embedding of `PrepareEventMapFromFlags`, `parseEventFlag` and
`getEventFilterParts`, followed by theorems about them.

Conventions of the embedding:

* A Go `string` is a `List Char`. Every delimiter the code looks for
  (`.`, `,`, `-`, `=`, `!`, `<`, `>`) is ASCII, so splitting, searching and
  slicing agree at the byte level and at the code-point level.
* A Go `(value, error)` result is a pair whose second component is
  `none` for a `nil` error.
* A Go map value that may be `nil` is an `Option`.
* Slicing `s[:i]` and `s[i:]` are `List.take` and `List.drop`; indexing
  `xs[i]` is `List.getD xs i []`. A second, bounds-checked variant of
  `getEventFilterParts` and `parseEventFlag` returns `none` where Go would
  panic on an index or slice out of range.
-/

namespace flags

abbrev GoString := List Char

/-! ## Library functions of package `strings` -/

/-- Go `strings.Split(s, sep)` for a one-character separator: the pieces of
`s` between occurrences of `sep`; never empty (`Split "" sep = [""]`). -/
def Split : GoString → Char → List GoString
  | [], _ => [[]]
  | c :: cs, sep =>
    if c = sep then [] :: Split cs sep
    else
      match Split cs sep with
      | [] => [[c]]
      | p :: ps => (c :: p) :: ps

/-- Go `strings.IndexAny(s, chars)`: index of the first character of `s` that
occurs in `chars`, or `-1`. -/
def IndexAny : GoString → GoString → Int
  | [], _ => -1
  | c :: cs, chars =>
    if c ∈ chars then 0
    else
      let i := IndexAny cs chars
      if i = -1 then -1 else i + 1

/-- The operator characters `parseEventFlag` searches for (`"=!<>"`). -/
abbrev operatorChars : GoString := ['=', '!', '<', '>']

/-- Go `strings.Contains(s, sep)` for a one-character `sep`. -/
def Contains (s : GoString) (sep : Char) : Bool := decide (sep ∈ s)

/-- Go `strings.Join(elems, sep)` for a one-character separator. -/
def Join : List GoString → Char → GoString
  | [], _ => []
  | [a], _ => a
  | a :: b :: rest, sep => a ++ sep :: Join (b :: rest) sep

/-! ## Errors -/

/-- Modelled from the spec: the error constructors `InvalidFlagEmpty`,
`InvalidFilterFlagFormat` and `errfmt.WrapError` are not in `event.go`. Per the
spec there are two kinds of error, the empty flag and the format error that
carries the original flag text, and the error surfaced to the caller is the
wrapped one; `WrapError` keeps the error it decorates. -/
inductive FlagError where
  | InvalidFlagEmpty : FlagError
  | InvalidFilterFlagFormat (flag : GoString) : FlagError
  | WrapError (err : FlagError) : FlagError
  deriving DecidableEq, Repr

open FlagError

/-! ## Data model -/

/-- Pre-parsed event flag fields (`type eventFlag struct`). -/
structure eventFlag where
  full : GoString := []
  eventFilter : GoString := []
  eventName : GoString := []
  eventOptionType : GoString := []
  eventOptionName : GoString := []
  operator : GoString := []
  values : GoString := []
  operatorAndValues : GoString := []
  filter : GoString := []
  deriving DecidableEq, Repr

/-- Pre-parsed event flag fields of one policy (`type policyEvents struct`). -/
structure policyEvents where
  policyName : GoString := []
  eventFlags : List eventFlag := []
  deriving DecidableEq, Repr

/-- Go `map[int]policyEvents` as an association list with unique keys. -/
abbrev PolicyEventMap := List (Int × policyEvents)

/-- Map assignment `m[k] = v`: overwrite the entry of `k` or add one. -/
def PolicyEventMap.set : PolicyEventMap → Int → policyEvents → PolicyEventMap
  | [], k, v => [(k, v)]
  | (k', v') :: m, k, v =>
    if k' = k then (k, v) :: m else (k', v') :: PolicyEventMap.set m k v

/-- Result of `getEventFilterParts` (`type filterOptParts struct`). -/
structure filterOptParts where
  name : GoString := []
  optType : GoString := []
  optName : GoString := []
  deriving DecidableEq, Repr

/-- Result of `getOperatorAndValuesParts`. -/
structure operatorAndValuesParts where
  operator : GoString := []
  values : GoString := []
  operatorAndValues : GoString := []
  deriving DecidableEq, Repr

/-! ## Helpers of the package that live outside `event.go` -/

/-- Modelled from the spec: the character class behind "whitespace" is not
in `event.go`; this is Go's `unicode.IsSpace`. -/
def isSpace (c : Char) : Bool :=
  c = ' ' || c = '\t' || c = '\n' || c = '\r' || c.toNat = 0x0B || c.toNat = 0x0C ||
  c.toNat = 0x85 || c.toNat = 0xA0 || c.toNat = 0x1680 ||
  (0x2000 ≤ c.toNat && c.toNat ≤ 0x200A) ||
  c.toNat = 0x2028 || c.toNat = 0x2029 || c.toNat = 0x202F || c.toNat = 0x205F ||
  c.toNat = 0x3000

/-- Modelled from the spec: `hasLeadingOrTrailingWhitespace` is not in
`event.go`. Per the spec a token is rejected when it has leading or trailing
whitespace: true when the first or the last character is a space character,
false for the empty string. -/
def hasLeadingOrTrailingWhitespace (s : GoString) : Bool :=
  match s.head?, s.getLast? with
  | some a, some b => isSpace a || isSpace b
  | _, _ => false

/-- Modelled from the spec: `getOperatorAndValuesParts` is not in `event.go`.
Per the spec (OperatorValueExtractor) it looks at the operator character at
`operatorIdx` and one character ahead: `!=`, `<=`, `>=` are two-character
operators, `=`, `<`, `>` one-character operators, a `!` not followed by `=`
is a format error carrying the whole flag; `values` is everything after the
operator token (possibly empty) and `operatorAndValues` is `flag[operatorIdx:]`
verbatim. -/
def getOperatorAndValuesParts (flag : GoString) (operatorIdx : Int) :
    operatorAndValuesParts × Option FlagError :=
  let operatorAndValues := flag.drop operatorIdx.toNat
  match operatorAndValues with
  | '!' :: '=' :: values =>
    ({ operator := ['!', '='], values := values, operatorAndValues := operatorAndValues }, none)
  | '<' :: '=' :: values =>
    ({ operator := ['<', '='], values := values, operatorAndValues := operatorAndValues }, none)
  | '>' :: '=' :: values =>
    ({ operator := ['>', '='], values := values, operatorAndValues := operatorAndValues }, none)
  | '=' :: values =>
    ({ operator := ['='], values := values, operatorAndValues := operatorAndValues }, none)
  | '<' :: values =>
    ({ operator := ['<'], values := values, operatorAndValues := operatorAndValues }, none)
  | '>' :: values =>
    ({ operator := ['>'], values := values, operatorAndValues := operatorAndValues }, none)
  | _ => ({}, some (InvalidFilterFlagFormat flag))

/-! ## `event.go` -/

/-- Source `getEventFilterParts`: splits an event filter into its parts,
validating them. Valid formats: "xxxx.xxxx", "xxxx.xxxx.xxxx". -/
def getEventFilterParts (filter flag : GoString) : filterOptParts × Option FlagError :=
  let filterParts := Split filter '.'
  if filterParts.getD 0 [] = [] || decide (filterParts.length < 2) ||
      filterParts.getD 1 [] = [] || decide (filterParts.length > 3) then
    ({}, some (InvalidFilterFlagFormat flag))
  else
    let name := filterParts.getD 0 []
    let optType := filterParts.getD 1 []
    let optName := if filterParts.length = 3 then filterParts.getD 2 [] else []
    if filterParts.length = 3 ∧ optName = [] then
      ({}, some (InvalidFilterFlagFormat flag))
    else if hasLeadingOrTrailingWhitespace name ||
        hasLeadingOrTrailingWhitespace optType ||
        hasLeadingOrTrailingWhitespace optName then
      ({}, some (InvalidFilterFlagFormat flag))
    else
      ({ name := name, optType := optType, optName := optName }, none)

/-- The tests of the name loop of `parseEventFlag` that reject an element:
it is empty, padded, or starts with `-` and is padded after the `-`. -/
def nameRejected (evtName : GoString) : Bool :=
  decide (evtName = []) || hasLeadingOrTrailingWhitespace evtName ||
    (decide (evtName.head? = some '-') && hasLeadingOrTrailingWhitespace (evtName.drop 1))

/-- The descriptor the name loop of `parseEventFlag` appends for an element it
accepts: an unset flag for a leading `-`, a set flag otherwise. -/
def nameFlag (evtName : GoString) : eventFlag :=
  if evtName.head? = some '-' then
    { full := evtName, eventName := evtName.drop 1, operator := ['-'] }
  else
    { full := evtName, eventName := evtName }

/-- The `for _, evtName := range evtNames` loop of `parseEventFlag`, with the
`return evtFlags, nil` that follows it; `evtFlags` is the slice built so far. -/
def parseEventNames (flag : GoString) :
    List GoString → List eventFlag → List eventFlag × Option FlagError
  | [], evtFlags => (evtFlags, none)
  | evtName :: rest, evtFlags =>
    if evtName = [] then
      ([], some (WrapError (InvalidFilterFlagFormat flag)))
    else if hasLeadingOrTrailingWhitespace evtName then
      ([], some (WrapError (InvalidFilterFlagFormat flag)))
    else if evtName.head? = some '-' then
      let name := evtName.drop 1
      if hasLeadingOrTrailingWhitespace name then
        ([], some (WrapError (InvalidFilterFlagFormat flag)))
      else
        parseEventNames flag rest
          (evtFlags ++ [{ full := evtName, eventName := name, operator := ['-'] }])
    else
      parseEventNames flag rest (evtFlags ++ [{ full := evtName, eventName := evtName }])

/-- Source `parseEventFlag`: parses an event flag and returns a slice of
`eventFlag` with pre-parsed fields, or an error if the flag is invalid. -/
def parseEventFlag (flag : GoString) : List eventFlag × Option FlagError :=
  if flag = [] then
    ([], some (WrapError InvalidFlagEmpty))
  else
    let operatorIdx := IndexAny flag operatorChars
    if operatorIdx = -1 then
      if Contains flag '.' then
        match getEventFilterParts flag flag with
        | (_, some err) => ([], some (WrapError err))
        | (evtParts, none) =>
          ([{ full := flag,
              eventFilter := flag,
              eventName := evtParts.name,
              eventOptionType := evtParts.optType,
              eventOptionName := evtParts.optName }], none)
      else
        let evtNames := Split flag ','
        parseEventNames flag evtNames []
    else
      let evtFilter := flag.take operatorIdx.toNat
      match getEventFilterParts evtFilter flag with
      | (_, some err) => ([], some (WrapError err))
      | (evtParts, none) =>
        let filter := flag.drop (evtParts.name.length + 1)
        match getOperatorAndValuesParts flag operatorIdx with
        | (_, some err) => ([], some (WrapError err))
        | (opAndValParts, none) =>
          ([{ full := flag,
              eventFilter := evtFilter,
              eventName := evtParts.name,
              eventOptionType := evtParts.optType,
              eventOptionName := evtParts.optName,
              operator := opAndValParts.operator,
              values := opAndValParts.values,
              operatorAndValues := opAndValParts.operatorAndValues,
              filter := filter }], none)

/-- The `for _, evtFlag := range eventsArr` loop of `PrepareEventMapFromFlags`
with the map construction that follows it; `evtFlags` is the slice built so
far. A `nil` map is `none`. -/
def prepareLoop : List GoString → List eventFlag → Option PolicyEventMap × Option FlagError
  | [], evtFlags =>
    let eventMap : PolicyEventMap := []
    let eventMap := eventMap.set 0 { eventFlags := evtFlags }
    (some eventMap, none)
  | evtFlag :: rest, evtFlags =>
    match parseEventFlag evtFlag with
    | (_, some err) => (none, some err)
    | (parsed, none) => prepareLoop rest (evtFlags ++ parsed)

/-- Source `PrepareEventMapFromFlags`. -/
def PrepareEventMapFromFlags (eventsArr : List GoString) :
    Option PolicyEventMap × Option FlagError :=
  prepareLoop eventsArr []

/-! ## Bounds-checked variant

The same code with every index and slice expression checked the way the Go
run time checks it: `none` stands for the panic of an index or slice out of
range. -/

/-- Go `s[:i]`; `none` when `i` is out of range. -/
def sliceTo? (s : GoString) (i : Int) : Option GoString :=
  if 0 ≤ i ∧ i ≤ (s.length : Int) then some (s.take i.toNat) else none

/-- Go `s[i:]`; `none` when `i` is out of range. -/
def sliceFrom? (s : GoString) (i : Nat) : Option GoString :=
  if i ≤ s.length then some (s.drop i) else none

/-- Source `getEventFilterParts` with checked indexing. The first test is the
short-circuit `||` of the source: `filterParts[1]` is read only when
`filterParts[0] == ""` and `len(filterParts) < 2` are both false. -/
def getEventFilterPartsChecked (filter flag : GoString) :
    Option (filterOptParts × Option FlagError) := do
  let filterParts := Split filter '.'
  let first ← filterParts[0]?
  let invalid ←
    if first = [] then pure true
    else if filterParts.length < 2 then pure true
    else do
      let second ← filterParts[1]?
      pure (decide (second = []) || decide (filterParts.length > 3))
  if invalid then
    pure ({}, some (InvalidFilterFlagFormat flag))
  else do
    let name ← filterParts[0]?
    let optType ← filterParts[1]?
    let optName ← if filterParts.length = 3 then filterParts[2]? else pure []
    if filterParts.length = 3 ∧ optName = [] then
      pure ({}, some (InvalidFilterFlagFormat flag))
    else if hasLeadingOrTrailingWhitespace name ||
        hasLeadingOrTrailingWhitespace optType ||
        hasLeadingOrTrailingWhitespace optName then
      pure ({}, some (InvalidFilterFlagFormat flag))
    else
      pure ({ name := name, optType := optType, optName := optName }, none)

/-- The name loop of `parseEventFlag` with `evtName[0]` and `evtName[1:]`
checked. -/
def parseEventNamesChecked (flag : GoString) :
    List GoString → List eventFlag → Option (List eventFlag × Option FlagError)
  | [], evtFlags => some (evtFlags, none)
  | evtName :: rest, evtFlags =>
    if evtName = [] then
      some ([], some (WrapError (InvalidFilterFlagFormat flag)))
    else if hasLeadingOrTrailingWhitespace evtName then
      some ([], some (WrapError (InvalidFilterFlagFormat flag)))
    else
      match evtName[0]? with
      | none => none
      | some c =>
        if c = '-' then
          match sliceFrom? evtName 1 with
          | none => none
          | some name =>
            if hasLeadingOrTrailingWhitespace name then
              some ([], some (WrapError (InvalidFilterFlagFormat flag)))
            else
              parseEventNamesChecked flag rest
                (evtFlags ++ [{ full := evtName, eventName := name, operator := ['-'] }])
        else
          parseEventNamesChecked flag rest
            (evtFlags ++ [{ full := evtName, eventName := evtName }])

/-- Source `parseEventFlag` with `flag[:operatorIdx]` and `flag[len(name)+1:]`
checked, over the checked `getEventFilterParts` and name loop. -/
def parseEventFlagChecked (flag : GoString) : Option (List eventFlag × Option FlagError) :=
  if flag = [] then
    some ([], some (WrapError InvalidFlagEmpty))
  else
    let operatorIdx := IndexAny flag operatorChars
    if operatorIdx = -1 then
      if Contains flag '.' then
        match getEventFilterPartsChecked flag flag with
        | none => none
        | some (_, some err) => some ([], some (WrapError err))
        | some (evtParts, none) =>
          some ([{ full := flag,
                   eventFilter := flag,
                   eventName := evtParts.name,
                   eventOptionType := evtParts.optType,
                   eventOptionName := evtParts.optName }], none)
      else
        parseEventNamesChecked flag (Split flag ',') []
    else
      match sliceTo? flag operatorIdx with
      | none => none
      | some evtFilter =>
        match getEventFilterPartsChecked evtFilter flag with
        | none => none
        | some (_, some err) => some ([], some (WrapError err))
        | some (evtParts, none) =>
          match sliceFrom? flag (evtParts.name.length + 1) with
          | none => none
          | some filter =>
            match getOperatorAndValuesParts flag operatorIdx with
            | (_, some err) => some ([], some (WrapError err))
            | (opAndValParts, none) =>
              some ([{ full := flag,
                       eventFilter := evtFilter,
                       eventName := evtParts.name,
                       eventOptionType := evtParts.optType,
                       eventOptionName := evtParts.optName,
                       operator := opAndValParts.operator,
                       values := opAndValParts.values,
                       operatorAndValues := opAndValParts.operatorAndValues,
                       filter := filter }], none)

/-! ## The flag loop of `PrepareEventMapFromFlags` -/

theorem prepareLoop_ok (eventsArr : List GoString) :
    ∀ evtFlags : List eventFlag, (∀ f ∈ eventsArr, (parseEventFlag f).2 = none) →
      prepareLoop eventsArr evtFlags =
        (some [(0, { policyName := [],
                     eventFlags := evtFlags ++
                       (eventsArr.map (fun f => (parseEventFlag f).1)).flatten })], none) := by
  induction eventsArr with
  | nil => intro evtFlags _; simp [prepareLoop, PolicyEventMap.set]
  | cons f rest ih =>
    intro evtFlags h
    have hf : (parseEventFlag f).2 = none := h f (List.mem_cons_self _ _)
    have hrest : ∀ g ∈ rest, (parseEventFlag g).2 = none :=
      fun g hg => h g (List.mem_cons_of_mem _ hg)
    rcases hp : parseEventFlag f with ⟨parsed, err⟩
    rw [hp] at hf
    simp only at hf
    subst hf
    simp only [prepareLoop, hp]
    rw [ih (evtFlags ++ parsed) hrest]
    simp [hp, List.append_assoc]

theorem prepareLoop_first_error (pre : List GoString) (f : GoString) (post : List GoString)
    (err : FlagError) :
    ∀ evtFlags : List eventFlag, (∀ g ∈ pre, (parseEventFlag g).2 = none) →
      (parseEventFlag f).2 = some err →
      prepareLoop (pre ++ f :: post) evtFlags = (none, some err) := by
  induction pre with
  | nil =>
    intro evtFlags _ hf
    rcases hp : parseEventFlag f with ⟨parsed, e⟩
    rw [hp] at hf
    simp only at hf
    subst hf
    simp [prepareLoop, hp]
  | cons g pre ih =>
    intro evtFlags h hf
    have hg : (parseEventFlag g).2 = none := h g (List.mem_cons_self _ _)
    have hpre : ∀ x ∈ pre, (parseEventFlag x).2 = none :=
      fun x hx => h x (List.mem_cons_of_mem _ hx)
    rcases hp : parseEventFlag g with ⟨parsed, e⟩
    rw [hp] at hg
    simp only at hg
    subst hg
    simp only [List.cons_append, prepareLoop, hp]
    exact ih (evtFlags ++ parsed) hpre hf

/-- Every list with a failing flag splits at its first failing flag. -/
theorem exists_first_failing (eventsArr : List GoString)
    (h : ∃ f ∈ eventsArr, (parseEventFlag f).2 ≠ none) :
    ∃ pre f post err, eventsArr = pre ++ f :: post ∧
      (∀ g ∈ pre, (parseEventFlag g).2 = none) ∧ (parseEventFlag f).2 = some err := by
  induction eventsArr with
  | nil => obtain ⟨f, hf, _⟩ := h; simp at hf
  | cons a rest ih =>
    cases ha : (parseEventFlag a).2 with
    | some err => exact ⟨[], a, rest, err, rfl, by simp, ha⟩
    | none =>
      obtain ⟨f, hf, hne⟩ := h
      have hmem : f ∈ rest := by
        rcases List.mem_cons.mp hf with rfl | hm
        · exact absurd ha hne
        · exact hm
      obtain ⟨pre, g, post, err, heq, hpre, hg⟩ := ih ⟨f, hmem, hne⟩
      refine ⟨a :: pre, g, post, err, by simp [heq], ?_, hg⟩
      intro x hx
      rcases List.mem_cons.mp hx with rfl | hm
      · exact ha
      · exact hpre x hm

/-! ## Lemmas on `strings.IndexAny` and `strings.Split` -/

theorem IndexAny_ge (s chars : GoString) : -1 ≤ IndexAny s chars := by
  induction s with
  | nil => simp [IndexAny]
  | cons c cs ih =>
    simp only [IndexAny]
    split_ifs <;> omega

theorem IndexAny_eq_neg_one_iff (s chars : GoString) :
    IndexAny s chars = -1 ↔ ∀ c ∈ s, c ∉ chars := by
  induction s with
  | nil => simp [IndexAny]
  | cons c cs ih =>
    have hge := IndexAny_ge cs chars
    simp only [IndexAny, List.mem_cons, forall_eq_or_imp]
    split_ifs with h1 h2
    · simp [h1]
    · simpa [h1] using ih.mp h2
    · constructor
      · intro h; omega
      · intro h; exact absurd (ih.mpr h.2) h2

theorem IndexAny_append (pre : GoString) (c : Char) (rest chars : GoString)
    (hpre : ∀ x ∈ pre, x ∉ chars) (hc : c ∈ chars) :
    IndexAny (pre ++ c :: rest) chars = pre.length := by
  induction pre with
  | nil => simp [IndexAny, hc]
  | cons a pre ih =>
    have ha : a ∉ chars := hpre a (List.mem_cons_self _ _)
    have ih2 := ih (fun x hx => hpre x (List.mem_cons_of_mem _ hx))
    have hstep : IndexAny (a :: (pre ++ c :: rest)) chars =
        if IndexAny (pre ++ c :: rest) chars = -1 then -1
        else IndexAny (pre ++ c :: rest) chars + 1 := by
      simp [IndexAny, ha]
    rw [List.cons_append, hstep, ih2]
    have : (pre.length : Int) ≠ -1 := by omega
    simp [this]

/-- A string with an operator character splits at the first one. -/
theorem exists_first_mem (s chars : GoString) (h : ∃ c ∈ s, c ∈ chars) :
    ∃ pre c rest, s = pre ++ c :: rest ∧ (∀ x ∈ pre, x ∉ chars) ∧ c ∈ chars := by
  induction s with
  | nil => obtain ⟨c, hc, _⟩ := h; simp at hc
  | cons a cs ih =>
    by_cases ha : a ∈ chars
    · exact ⟨[], a, cs, rfl, by simp, ha⟩
    · obtain ⟨c, hc, hcc⟩ := h
      have hmem : c ∈ cs := by
        rcases List.mem_cons.mp hc with rfl | hm
        · exact absurd hcc ha
        · exact hm
      obtain ⟨pre, d, rest, heq, hpre, hd⟩ := ih ⟨c, hmem, hcc⟩
      refine ⟨a :: pre, d, rest, by simp [heq], ?_, hd⟩
      intro x hx
      rcases List.mem_cons.mp hx with rfl | hm
      · exact ha
      · exact hpre x hm

theorem Split_ne_nil (s : GoString) (sep : Char) : Split s sep ≠ [] := by
  cases s with
  | nil => simp [Split]
  | cons c cs =>
    simp only [Split]
    split_ifs
    · simp
    · split <;> simp

theorem Split_cons_sep (cs : GoString) (sep : Char) :
    Split (sep :: cs) sep = [] :: Split cs sep := by
  simp [Split]

theorem Split_cons_ne (c : Char) (cs : GoString) (sep : Char) (h : c ≠ sep) :
    ∃ p ps, Split cs sep = p :: ps ∧ Split (c :: cs) sep = (c :: p) :: ps := by
  rcases hs : Split cs sep with _ | ⟨p, ps⟩
  · exact absurd hs (Split_ne_nil cs sep)
  · exact ⟨p, ps, rfl, by simp [Split, h, hs]⟩

theorem Split_of_not_mem (s : GoString) (sep : Char) (h : sep ∉ s) : Split s sep = [s] := by
  induction s with
  | nil => simp [Split]
  | cons c cs ih =>
    have hc : c ≠ sep := fun e => h (by simp [e])
    have hcs : sep ∉ cs := fun e => h (List.mem_cons_of_mem _ e)
    simp [Split, hc, ih hcs]

theorem Split_append_sep (a : GoString) (sep : Char) (b : GoString) (h : sep ∉ a) :
    Split (a ++ sep :: b) sep = a :: Split b sep := by
  induction a with
  | nil => simp [Split]
  | cons c cs ih =>
    have hc : c ≠ sep := fun e => h (by simp [e])
    have hcs : sep ∉ cs := fun e => h (List.mem_cons_of_mem _ e)
    simp [Split, hc, ih hcs]

/-- No piece of a split contains the separator. -/
theorem not_mem_of_mem_Split (s : GoString) (sep : Char) :
    ∀ p ∈ Split s sep, sep ∉ p := by
  induction s with
  | nil => simp [Split]
  | cons c cs ih =>
    by_cases hc : c = sep
    · subst hc
      rw [Split_cons_sep]
      intro p hp
      rcases List.mem_cons.mp hp with rfl | hm
      · simp
      · exact ih p hm
    · obtain ⟨q, qs, hq, hsplit⟩ := Split_cons_ne c cs sep hc
      rw [hsplit]
      rw [hq] at ih
      intro p hp
      rcases List.mem_cons.mp hp with rfl | hm
      · intro hmem
        rcases List.mem_cons.mp hmem with e | hm2
        · exact hc e.symm
        · exact ih q (List.mem_cons_self _ _) hm2
      · exact ih p (List.mem_cons_of_mem _ hm)

/-- Every character of a piece of a split is a character of the string. -/
theorem mem_of_mem_Split (s : GoString) (sep : Char) :
    ∀ p ∈ Split s sep, ∀ x ∈ p, x ∈ s := by
  induction s with
  | nil => simp [Split]
  | cons c cs ih =>
    by_cases hc : c = sep
    · subst hc
      rw [Split_cons_sep]
      intro p hp x hx
      rcases List.mem_cons.mp hp with rfl | hm
      · simp at hx
      · exact List.mem_cons_of_mem _ (ih p hm x hx)
    · obtain ⟨q, qs, hq, hsplit⟩ := Split_cons_ne c cs sep hc
      rw [hsplit]
      rw [hq] at ih
      intro p hp x hx
      rcases List.mem_cons.mp hp with rfl | hm
      · rcases List.mem_cons.mp hx with rfl | hm2
        · exact List.mem_cons_self _ _
        · exact List.mem_cons_of_mem _ (ih q (List.mem_cons_self _ _) x hm2)
      · exact List.mem_cons_of_mem _ (ih p (List.mem_cons_of_mem _ hm) x hx)

/-! ## The name loop of `parseEventFlag` -/

theorem parseEventNames_eq (flag : GoString) (names : List GoString) :
    ∀ evtFlags : List eventFlag,
      parseEventNames flag names evtFlags =
        if names.any nameRejected then ([], some (WrapError (InvalidFilterFlagFormat flag)))
        else (evtFlags ++ names.map nameFlag, none) := by
  induction names with
  | nil => intro evtFlags; simp [parseEventNames]
  | cons e rest ih =>
    intro evtFlags
    simp only [parseEventNames, List.any_cons, List.map_cons]
    by_cases h1 : e = []
    · simp [h1, nameRejected]
    · by_cases h2 : hasLeadingOrTrailingWhitespace e = true
      · simp [h1, h2, nameRejected]
      · by_cases h3 : e.head? = some '-'
        · by_cases h4 : hasLeadingOrTrailingWhitespace e.tail = true
          · simp [h1, h2, h3, h4, nameRejected]
          · simp only [h1, h2, h3, h4, List.drop_one, if_false, if_true, ih]
            simp [nameRejected, nameFlag, h1, h2, h3, h4]
        · simp only [h1, h2, h3, if_false, ih]
          simp [nameRejected, nameFlag, h1, h2, h3]

/-- On a non-empty flag without operator character and without `.`,
`parseEventFlag` is the name loop over the comma-separated elements. -/
theorem parseEventFlag_eq_names (flag : GoString) (hne : flag ≠ [])
    (hop : ∀ c ∈ flag, c ∉ operatorChars) (hdot : '.' ∉ flag) :
    parseEventFlag flag = parseEventNames flag (Split flag ',') [] := by
  have hidx : IndexAny flag operatorChars = -1 := (IndexAny_eq_neg_one_iff _ _).mpr hop
  simp [parseEventFlag, hne, hidx, Contains, hdot]

/-! ## C1, C2, C10 -/

/-- C1: when `parseEventFlag` succeeds on every flag, `PrepareEventMapFromFlags`
succeeds and returns a map with the single key `0`, whose `policyName` is empty
and whose `eventFlags` is the concatenation, in input order, of the descriptor
lists `parseEventFlag` returns for the flags. -/
theorem PrepareEventMapFromFlags_all_ok (eventsArr : List GoString)
    (h : ∀ f ∈ eventsArr, (parseEventFlag f).2 = none) :
    PrepareEventMapFromFlags eventsArr =
      (some [(0, { policyName := [],
                   eventFlags := (eventsArr.map (fun f => (parseEventFlag f).1)).flatten })],
       none) := by
  have := prepareLoop_ok eventsArr [] h
  simpa [PrepareEventMapFromFlags] using this

theorem PrepareEventMapFromFlags_all_ok_witness :
    (∀ f ∈ ["fs".toList, "-open,-openat".toList], (parseEventFlag f).2 = none) ∧
    PrepareEventMapFromFlags ["fs".toList, "-open,-openat".toList] =
      (some [(0, { policyName := [],
                   eventFlags := [
                     { full := "fs".toList, eventName := "fs".toList },
                     { full := "-open".toList, eventName := "open".toList, operator := ['-'] },
                     { full := "-openat".toList, eventName := "openat".toList,
                       operator := ['-'] }] })],
       none) :=
  ⟨by decide,
   (PrepareEventMapFromFlags_all_ok ["fs".toList, "-open,-openat".toList] (by decide)).trans
     (by decide)⟩

/-- C2: `PrepareEventMapFromFlags` fails exactly when `parseEventFlag` fails on
some flag of the list; when it fails the returned map is nil, and the error is
the one `parseEventFlag` returns for the first failing flag, whatever the flags
after it are. -/
theorem PrepareEventMapFromFlags_fails_iff (eventsArr : List GoString) :
    ((PrepareEventMapFromFlags eventsArr).2 ≠ none ↔
      ∃ f ∈ eventsArr, (parseEventFlag f).2 ≠ none) ∧
    ((PrepareEventMapFromFlags eventsArr).2 ≠ none →
      (PrepareEventMapFromFlags eventsArr).1 = none) ∧
    (∀ pre f post err, eventsArr = pre ++ f :: post →
      (∀ g ∈ pre, (parseEventFlag g).2 = none) → (parseEventFlag f).2 = some err →
      PrepareEventMapFromFlags eventsArr = (none, some err)) := by
  have hfirst : ∀ pre f post err, eventsArr = pre ++ f :: post →
      (∀ g ∈ pre, (parseEventFlag g).2 = none) → (parseEventFlag f).2 = some err →
      PrepareEventMapFromFlags eventsArr = (none, some err) := by
    intro pre f post err heq hpre hf
    subst heq
    exact prepareLoop_first_error pre f post err [] hpre hf
  have hiff : (PrepareEventMapFromFlags eventsArr).2 ≠ none ↔
      ∃ f ∈ eventsArr, (parseEventFlag f).2 ≠ none := by
    constructor
    · intro hfail
      by_contra hno
      have hall : ∀ f ∈ eventsArr, (parseEventFlag f).2 = none := by
        intro f hf
        by_contra hne
        exact hno ⟨f, hf, hne⟩
      have := prepareLoop_ok eventsArr [] hall
      simp [PrepareEventMapFromFlags, this] at hfail
    · intro hex
      obtain ⟨pre, f, post, err, heq, hpre, hf⟩ := exists_first_failing eventsArr hex
      rw [hfirst pre f post err heq hpre hf]
      simp
  refine ⟨hiff, ?_, hfirst⟩
  intro hfail
  obtain ⟨pre, f, post, err, heq, hpre, hf⟩ := exists_first_failing eventsArr (hiff.mp hfail)
  rw [hfirst pre f post err heq hpre hf]

theorem PrepareEventMapFromFlags_fails_iff_witness :
    PrepareEventMapFromFlags ["fs".toList, "a.b.c.d".toList, "".toList] =
      (none, some (WrapError (InvalidFilterFlagFormat "a.b.c.d".toList))) :=
  (PrepareEventMapFromFlags_fails_iff ["fs".toList, "a.b.c.d".toList, "".toList]).2.2
    ["fs".toList] "a.b.c.d".toList ["".toList]
    (WrapError (InvalidFilterFlagFormat "a.b.c.d".toList)) rfl (by decide) (by decide)

/-- C10: `parseEventFlag ""` fails with the empty-flag error and returns no
descriptors; hence `PrepareEventMapFromFlags` on a list whose first failing
flag is the empty string returns that error and a nil map. -/
theorem parseEventFlag_empty :
    parseEventFlag [] = ([], some (WrapError InvalidFlagEmpty)) ∧
    (∀ pre post : List GoString, (∀ g ∈ pre, (parseEventFlag g).2 = none) →
      PrepareEventMapFromFlags (pre ++ [] :: post) =
        (none, some (WrapError InvalidFlagEmpty))) ∧
    PrepareEventMapFromFlags [[]] = (none, some (WrapError InvalidFlagEmpty)) := by
  have h0 : parseEventFlag [] = ([], some (WrapError InvalidFlagEmpty)) := by
    simp [parseEventFlag]
  refine ⟨h0, ?_, ?_⟩
  · intro pre post hpre
    exact prepareLoop_first_error pre [] post _ [] hpre (by rw [h0])
  · exact prepareLoop_first_error [] [] [] _ [] (by simp) (by rw [h0])

theorem parseEventFlag_empty_witness :
    PrepareEventMapFromFlags ["fs".toList, "".toList, "execve".toList] =
      (none, some (WrapError InvalidFlagEmpty)) :=
  parseEventFlag_empty.2.1 ["fs".toList] ["execve".toList] (by decide)

/-! ## C3, C4, C9: comma-separated name lists -/

/-- C3: a flag without operator character and without `.` whose comma-separated
elements are all non-empty, unpadded and do not begin with `-` parses to one
descriptor per element, in list order, with `eventName` and `full` equal to the
element and every other field (the operator included) empty. -/
theorem parseEventFlag_bare_names (flag : GoString)
    (hop : ∀ c ∈ flag, c ∉ operatorChars) (hdot : '.' ∉ flag)
    (helems : ∀ e ∈ Split flag ',',
      e ≠ [] ∧ hasLeadingOrTrailingWhitespace e = false ∧ e.head? ≠ some '-') :
    parseEventFlag flag =
      ((Split flag ',').map (fun e =>
        { full := e, eventFilter := [], eventName := e, eventOptionType := [],
          eventOptionName := [], operator := [], values := [], operatorAndValues := [],
          filter := [] }), none) := by
  have hne : flag ≠ [] := by
    rintro rfl
    exact (helems [] (by simp [Split])).1 rfl
  rw [parseEventFlag_eq_names flag hne hop hdot, parseEventNames_eq]
  have hany : (Split flag ',').any nameRejected = false := by
    rw [List.any_eq_false]
    intro e he
    obtain ⟨h1, h2, h3⟩ := helems e he
    simp [nameRejected, h1, h2, h3]
  rw [hany]
  simp only [Bool.false_eq_true, if_false, List.nil_append, Prod.mk.injEq, and_true]
  apply List.map_congr_left
  intro e he
  simp [nameFlag, (helems e he).2.2]

theorem parseEventFlag_bare_names_witness :
    parseEventFlag "execve,open*".toList =
      ([{ full := "execve".toList, eventName := "execve".toList },
        { full := "open*".toList, eventName := "open*".toList }], none) :=
  (parseEventFlag_bare_names "execve,open*".toList (by decide) (by decide) (by decide)).trans
    (by decide)

/-- C4: on a flag without operator character and without `.` that parses, the
result has one descriptor per comma-separated element, at the same position;
an element that begins with `-` gives `operator = "-"`, `eventName` the element
without that one leading `-`, and `full` the element with it; any other
element gives an empty operator. -/
theorem parseEventFlag_exclusions (flag : GoString) (ds : List eventFlag)
    (hop : ∀ c ∈ flag, c ∉ operatorChars) (hdot : '.' ∉ flag)
    (hok : parseEventFlag flag = (ds, none)) :
    ds.length = (Split flag ',').length ∧
    ∀ (i : Nat) (e : GoString), (Split flag ',')[i]? = some e →
      ∃ d, ds[i]? = some d ∧
        (e.head? = some '-' → d.operator = ['-'] ∧ e = '-' :: d.eventName ∧ d.full = e) ∧
        (e.head? ≠ some '-' → d.operator = []) := by
  have hne : flag ≠ [] := by
    rintro rfl
    simp [parseEventFlag] at hok
  rw [parseEventFlag_eq_names flag hne hop hdot, parseEventNames_eq] at hok
  by_cases hany : (Split flag ',').any nameRejected = true
  · simp [hany] at hok
  · rw [Bool.not_eq_true] at hany
    simp only [hany, Bool.false_eq_true, if_false, List.nil_append, Prod.mk.injEq,
      and_true] at hok
    subst hok
    refine ⟨by simp, ?_⟩
    intro i e hi
    refine ⟨nameFlag e, by simp [hi], ?_, ?_⟩
    · intro hhead
      refine ⟨by simp [nameFlag, hhead], ?_, by simp [nameFlag, hhead]⟩
      cases e with
      | nil => simp at hhead
      | cons a t =>
        simp only [List.head?_cons, Option.some.injEq] at hhead
        subst hhead
        simp [nameFlag]
    · intro hhead
      simp [nameFlag, hhead]

theorem parseEventFlag_exclusions_witness :
    ∃ d, [nameFlag "-open".toList, nameFlag "-openat".toList][1]? = some d ∧
      ("-openat".toList.head? = some '-' →
        d.operator = ['-'] ∧ "-openat".toList = '-' :: d.eventName ∧
          d.full = "-openat".toList) ∧
      ("-openat".toList.head? ≠ some '-' → d.operator = []) :=
  (parseEventFlag_exclusions "-open,-openat".toList
    [nameFlag "-open".toList, nameFlag "-openat".toList]
    (by decide) (by decide) (by decide)).2 1 "-openat".toList (by decide)

/-- C9: a non-empty flag without operator character and without `.` fails to
parse exactly when some comma-separated element is empty, or padded, or begins
with `-` and is padded after the `-`; every such failure is
`InvalidFilterFlagFormat` (wrapped), with no descriptors. -/
theorem parseEventFlag_names_fail_iff (flag : GoString) (hne : flag ≠ [])
    (hop : ∀ c ∈ flag, c ∉ operatorChars) (hdot : '.' ∉ flag) :
    ((parseEventFlag flag).2 ≠ none ↔
      ∃ e ∈ Split flag ',', e = [] ∨ hasLeadingOrTrailingWhitespace e = true ∨
        (e.head? = some '-' ∧ hasLeadingOrTrailingWhitespace (e.drop 1) = true)) ∧
    ((parseEventFlag flag).2 ≠ none →
      parseEventFlag flag = ([], some (WrapError (InvalidFilterFlagFormat flag)))) := by
  rw [parseEventFlag_eq_names flag hne hop hdot, parseEventNames_eq]
  by_cases hany : (Split flag ',').any nameRejected = true
  · simp only [hany, if_true, ne_eq, reduceCtorEq, not_false_eq_true, true_iff, forall_true_left,
      and_true]
    rw [List.any_eq_true] at hany
    obtain ⟨e, he, hrej⟩ := hany
    refine ⟨e, he, ?_⟩
    simp only [nameRejected, Bool.or_eq_true, Bool.and_eq_true, decide_eq_true_eq] at hrej
    rcases hrej with (h | h) | h
    · exact Or.inl h
    · exact Or.inr (Or.inl h)
    · exact Or.inr (Or.inr h)
  · have hany2 : (Split flag ',').any nameRejected = false := by
      rw [← Bool.not_eq_true]; exact hany
    simp only [hany2, Bool.false_eq_true, if_false, ne_eq, not_true_eq_false, false_iff,
      not_exists, not_and, false_implies, and_true]
    intro e he hbad
    apply hany
    rw [List.any_eq_true]
    refine ⟨e, he, ?_⟩
    simp only [nameRejected, Bool.or_eq_true, Bool.and_eq_true, decide_eq_true_eq]
    rcases hbad with h | h | h
    · exact Or.inl (Or.inl h)
    · exact Or.inl (Or.inr h)
    · exact Or.inr h

theorem parseEventFlag_names_fail_iff_witness :
    (parseEventFlag "open,,close".toList =
        ([], some (WrapError (InvalidFilterFlagFormat "open,,close".toList)))) ∧
    (parseEventFlag " open".toList).2 ≠ none ∧
    (parseEventFlag "open ,close".toList).2 ≠ none ∧
    (parseEventFlag "open,".toList).2 ≠ none ∧
    (parseEventFlag "open,- x".toList).2 ≠ none :=
  ⟨(parseEventFlag_names_fail_iff "open,,close".toList (by decide) (by decide) (by decide)).2
      (by decide),
   by decide, by decide, by decide, by decide⟩

/-! ## C8: `getEventFilterParts` -/

theorem hasLeadingOrTrailingWhitespace_nil : hasLeadingOrTrailingWhitespace [] = false := rfl

theorem getEventFilterParts_none_iff (filter flag : GoString) :
    (getEventFilterParts filter flag).2 = none ↔
      ((Split filter '.').length = 2 ∨ (Split filter '.').length = 3) ∧
      ∀ seg ∈ Split filter '.', seg ≠ [] ∧ hasLeadingOrTrailingWhitespace seg = false := by
  rcases h : Split filter '.' with _ | ⟨a, _ | ⟨b, _ | ⟨c, _ | ⟨d, r⟩⟩⟩⟩
  · exact absurd h (Split_ne_nil _ _)
  · simp [getEventFilterParts, h]
  · by_cases ha : a = [] <;> by_cases hb : b = [] <;>
      simp [getEventFilterParts, h, ha, hb, hasLeadingOrTrailingWhitespace_nil]
    by_cases wa : hasLeadingOrTrailingWhitespace a = true <;>
      by_cases wb : hasLeadingOrTrailingWhitespace b = true <;> simp [wa, wb]
  · by_cases ha : a = [] <;> by_cases hb : b = [] <;> by_cases hc : c = [] <;>
      simp [getEventFilterParts, h, ha, hb, hc, hasLeadingOrTrailingWhitespace_nil]
    by_cases wa : hasLeadingOrTrailingWhitespace a = true <;>
      by_cases wb : hasLeadingOrTrailingWhitespace b = true <;>
      by_cases wc : hasLeadingOrTrailingWhitespace c = true <;> simp [wa, wb, wc]
  · simp [getEventFilterParts, h]

theorem getEventFilterParts_fst (filter flag : GoString)
    (hok : (getEventFilterParts filter flag).2 = none) :
    (getEventFilterParts filter flag).1 =
      { name := (Split filter '.').getD 0 [],
        optType := (Split filter '.').getD 1 [],
        optName := (Split filter '.').getD 2 [] } := by
  revert hok
  rcases h : Split filter '.' with _ | ⟨a, _ | ⟨b, _ | ⟨c, _ | ⟨d, r⟩⟩⟩⟩
  · exact absurd h (Split_ne_nil _ _)
  · simp [getEventFilterParts, h]
  · simp only [getEventFilterParts, h, List.length_cons, List.length_nil]
    split_ifs <;> simp
  · simp only [getEventFilterParts, h, List.length_cons, List.length_nil]
    split_ifs <;> simp
  · simp [getEventFilterParts, h]

/-- A failing `getEventFilterParts` returns `InvalidFilterFlagFormat flag`. -/
theorem getEventFilterParts_err (filter flag : GoString) (err : FlagError)
    (h : (getEventFilterParts filter flag).2 = some err) :
    err = InvalidFilterFlagFormat flag := by
  revert h
  simp only [getEventFilterParts]
  split_ifs <;> simp <;> intro h <;> exact h.symm

/-- C8: `getEventFilterParts filter flag` succeeds exactly when splitting
`filter` on `.` gives 2 or 3 segments, each non-empty and unpadded; it then
returns the segments as `name`, `optType` and `optName` (empty for 2
segments). `"a.b.c.d"` and `"a"` fail, `"a.b"` and `"a.b.c"` succeed. -/
theorem getEventFilterParts_ok_iff (filter flag : GoString) :
    ((getEventFilterParts filter flag).2 = none ↔
      ((Split filter '.').length = 2 ∨ (Split filter '.').length = 3) ∧
      ∀ seg ∈ Split filter '.', seg ≠ [] ∧ hasLeadingOrTrailingWhitespace seg = false) ∧
    ((getEventFilterParts filter flag).2 = none →
      (getEventFilterParts filter flag).1 =
        { name := (Split filter '.').getD 0 [],
          optType := (Split filter '.').getD 1 [],
          optName := (Split filter '.').getD 2 [] }) ∧
    (getEventFilterParts "a.b.c.d".toList flag).2 ≠ none ∧
    (getEventFilterParts "a".toList flag).2 ≠ none ∧
    (getEventFilterParts "a.b".toList flag).2 = none ∧
    (getEventFilterParts "a.b.c".toList flag).2 = none :=
  ⟨getEventFilterParts_none_iff filter flag, getEventFilterParts_fst filter flag,
    by simp [getEventFilterParts, Split], by simp [getEventFilterParts, Split],
    by simp [getEventFilterParts, Split, hasLeadingOrTrailingWhitespace, isSpace],
    by simp [getEventFilterParts, Split, hasLeadingOrTrailingWhitespace, isSpace]⟩

/-! ## C5: dotted flags without operator -/

/-- C5: on a flag that contains `.` and no operator character,
`parseEventFlag` succeeds exactly when `getEventFilterParts flag flag` does, and
then returns one descriptor: `eventFilter` and `full` are the whole flag,
`eventName`, `eventOptionType`, `eventOptionName` are the first, second and
third (or empty) dot-separated segment, and the operator, values and
operatorAndValues are empty. Commas play no part. -/
theorem parseEventFlag_dotted (flag : GoString) (hdot : '.' ∈ flag)
    (hop : ∀ c ∈ flag, c ∉ operatorChars) :
    ((parseEventFlag flag).2 = none ↔ (getEventFilterParts flag flag).2 = none) ∧
    ((getEventFilterParts flag flag).2 = none →
      parseEventFlag flag =
        ([{ full := flag, eventFilter := flag,
            eventName := (Split flag '.').getD 0 [],
            eventOptionType := (Split flag '.').getD 1 [],
            eventOptionName := (Split flag '.').getD 2 [],
            operator := [], values := [], operatorAndValues := [], filter := [] }],
         none)) := by
  have hne : flag ≠ [] := by rintro rfl; simp at hdot
  have hidx : IndexAny flag operatorChars = -1 := (IndexAny_eq_neg_one_iff _ _).mpr hop
  have hfst := getEventFilterParts_fst flag flag
  rcases hp : getEventFilterParts flag flag with ⟨parts, _ | err⟩
  · rw [hp] at hfst
    have hparts := hfst rfl
    simp only at hparts
    subst hparts
    simp [parseEventFlag, hne, hidx, Contains, hdot, hp]
  · simp [parseEventFlag, hne, hidx, Contains, hdot, hp]

theorem parseEventFlag_dotted_witness :
    parseEventFlag "security_file_open.scope.container".toList =
        ([{ full := "security_file_open.scope.container".toList,
            eventFilter := "security_file_open.scope.container".toList,
            eventName := "security_file_open".toList,
            eventOptionType := "scope".toList,
            eventOptionName := "container".toList }], none) ∧
    parseEventFlag "a.b,c".toList =
        ([{ full := "a.b,c".toList, eventFilter := "a.b,c".toList,
            eventName := "a".toList, eventOptionType := "b,c".toList }], none) :=
  ⟨((parseEventFlag_dotted "security_file_open.scope.container".toList
      (by decide) (by decide)).2 (by decide)).trans (by decide),
   by decide⟩

/-! ## Flags with an operator -/

/-- On a flag whose first operator character `c` comes after `pre`,
`parseEventFlag` validates `pre` and then extracts the operator at
`len(pre)`. -/
theorem parseEventFlag_operator_eq (pre : GoString) (c : Char) (rest : GoString)
    (hpre : ∀ x ∈ pre, x ∉ operatorChars) (hc : c ∈ operatorChars) :
    parseEventFlag (pre ++ c :: rest) =
      match getEventFilterParts pre (pre ++ c :: rest) with
      | (_, some err) => ([], some (WrapError err))
      | (evtParts, none) =>
        match getOperatorAndValuesParts (pre ++ c :: rest) (pre.length : Int) with
        | (_, some err) => ([], some (WrapError err))
        | (opAndValParts, none) =>
          ([{ full := pre ++ c :: rest,
              eventFilter := pre,
              eventName := evtParts.name,
              eventOptionType := evtParts.optType,
              eventOptionName := evtParts.optName,
              operator := opAndValParts.operator,
              values := opAndValParts.values,
              operatorAndValues := opAndValParts.operatorAndValues,
              filter := (pre ++ c :: rest).drop (evtParts.name.length + 1) }], none) := by
  have hidx := IndexAny_append pre c rest operatorChars hpre hc
  have hne : pre ++ c :: rest ≠ [] := by simp
  have hneg : ((pre.length : Nat) : Int) ≠ -1 := by omega
  simp only [parseEventFlag, hne, if_false, hidx, hneg, Int.toNat_ofNat, List.take_left]

theorem getOperatorAndValuesParts_ok (flag : GoString) (idx : Int)
    (p : operatorAndValuesParts) (h : getOperatorAndValuesParts flag idx = (p, none)) :
    p.operatorAndValues = flag.drop idx.toNat := by
  revert h
  simp only [getOperatorAndValuesParts]
  split <;> simp <;> intro h <;> subst h <;> simp_all

theorem getOperatorAndValuesParts_err (flag : GoString) (idx : Int) (err : FlagError)
    (h : (getOperatorAndValuesParts flag idx).2 = some err) :
    err = InvalidFilterFlagFormat flag := by
  revert h
  simp only [getOperatorAndValuesParts]
  split <;> simp
  intro h
  exact h.symm

/-- The operator token is found when the value text does not begin with an
operator character. -/
theorem getOperatorAndValuesParts_of (pre op v : GoString)
    (hopmem : op ∈ [['='], ['!', '='], ['<'], ['>'], ['<', '='], ['>', '=']])
    (hv : ∀ c, v.head? = some c → c ∉ operatorChars) :
    getOperatorAndValuesParts (pre ++ op ++ v) (pre.length : Int) =
      ({ operator := op, values := v, operatorAndValues := op ++ v }, none) := by
  have hdrop : (pre ++ op ++ v).drop ((pre.length : Int)).toNat = op ++ v := by
    simp [List.append_assoc]
  simp only [getOperatorAndValuesParts, hdrop]
  simp only [List.mem_cons, List.mem_singleton, List.not_mem_nil, or_false] at hopmem
  rcases hopmem with rfl | rfl | rfl | rfl | rfl | rfl
  · rfl
  · rfl
  · cases v with
    | nil => rfl
    | cons x xs =>
      have hx : x ≠ '=' := fun e => hv x rfl (by simp [e])
      simp only [List.cons_append, List.nil_append]
      split <;> simp_all
  · cases v with
    | nil => rfl
    | cons x xs =>
      have hx : x ≠ '=' := fun e => hv x rfl (by simp [e])
      simp only [List.cons_append, List.nil_append]
      split <;> simp_all
  · rfl
  · rfl

/-! ## C6, C7 -/

/-- C6: when a flag with an operator character parses, the single descriptor
satisfies `eventFilter ++ operatorAndValues = flag`, where `eventFilter` holds
no operator character and `operatorAndValues` begins with one: they are the
parts of the flag before and from the first operator character. -/
theorem parseEventFlag_operator_roundtrip (flag : GoString) (ds : List eventFlag)
    (hop : ∃ c ∈ flag, c ∈ operatorChars) (hok : parseEventFlag flag = (ds, none)) :
    ∃ d, ds = [d] ∧ d.eventFilter ++ d.operatorAndValues = flag ∧
      (∀ x ∈ d.eventFilter, x ∉ operatorChars) ∧
      ∃ c rest, c ∈ operatorChars ∧ d.operatorAndValues = c :: rest := by
  obtain ⟨pre, c, rest, rfl, hpre, hc⟩ := exists_first_mem flag operatorChars hop
  rw [parseEventFlag_operator_eq pre c rest hpre hc] at hok
  rcases hp : getEventFilterParts pre (pre ++ c :: rest) with ⟨parts, _ | err⟩
  · rcases hq : getOperatorAndValuesParts (pre ++ c :: rest) (pre.length : Int) with
      ⟨p, _ | err⟩
    · have hsuffix := getOperatorAndValuesParts_ok _ _ p hq
      simp only [Int.toNat_ofNat, List.drop_left] at hsuffix
      simp only [hp, hq, Prod.mk.injEq, and_true] at hok
      subst hok
      exact ⟨_, rfl, by simp [hsuffix], hpre, c, rest, hc, hsuffix⟩
    · simp [hp, hq] at hok
  · simp [hp] at hok

theorem parseEventFlag_operator_roundtrip_witness :
    ∃ d, [({ full := "close.data.fd=5".toList, eventFilter := "close.data.fd".toList,
             eventName := "close".toList, eventOptionType := "data".toList,
             eventOptionName := "fd".toList, operator := "=".toList, values := "5".toList,
             operatorAndValues := "=5".toList, filter := "data.fd=5".toList } : eventFlag)]
          = [d] ∧
      d.eventFilter ++ d.operatorAndValues = "close.data.fd=5".toList ∧
      (∀ x ∈ d.eventFilter, x ∉ operatorChars) ∧
      ∃ c rest, c ∈ operatorChars ∧ d.operatorAndValues = c :: rest :=
  parseEventFlag_operator_roundtrip "close.data.fd=5".toList _ (by decide) (by decide)

/-- C7: for a valid filter expression `e` (2 or 3 non-empty unpadded segments,
no operator character), an operator `op` among `=`, `!=`, `<`, `>`, `<=`, `>=`
and a value text `v` that does not begin with an operator character,
`parseEventFlag (e ++ op ++ v)` returns one descriptor with `operator = op`,
`values = v`, `operatorAndValues = op ++ v`; and a flag whose first operator
character is a `!` not followed by `=` is rejected with
`InvalidFilterFlagFormat`. -/
theorem parseEventFlag_operator_values (e op v : GoString)
    (hlen : (Split e '.').length = 2 ∨ (Split e '.').length = 3)
    (hseg : ∀ seg ∈ Split e '.', seg ≠ [] ∧ hasLeadingOrTrailingWhitespace seg = false)
    (he : ∀ c ∈ e, c ∉ operatorChars)
    (hopmem : op ∈ [['='], ['!', '='], ['<'], ['>'], ['<', '='], ['>', '=']])
    (hv : ∀ c, v.head? = some c → c ∉ operatorChars) :
    parseEventFlag (e ++ op ++ v) =
        ([{ full := e ++ op ++ v,
            eventFilter := e,
            eventName := (Split e '.').getD 0 [],
            eventOptionType := (Split e '.').getD 1 [],
            eventOptionName := (Split e '.').getD 2 [],
            operator := op,
            values := v,
            operatorAndValues := op ++ v,
            filter := (e ++ op ++ v).drop (((Split e '.').getD 0 []).length + 1) }], none) ∧
    (∀ pre rest : GoString, (∀ x ∈ pre, x ∉ operatorChars) → rest.head? ≠ some '=' →
      parseEventFlag (pre ++ '!' :: rest) =
        ([], some (WrapError (InvalidFilterFlagFormat (pre ++ '!' :: rest))))) := by
  constructor
  · have hparts : (getEventFilterParts e (e ++ op ++ v)).2 = none :=
      (getEventFilterParts_none_iff e _).mpr ⟨hlen, hseg⟩
    have hfst := getEventFilterParts_fst e (e ++ op ++ v) hparts
    have hopv := getOperatorAndValuesParts_of e op v hopmem hv
    obtain ⟨c, t, hct, hc⟩ : ∃ c t, op = c :: t ∧ c ∈ operatorChars := by
      simp only [List.mem_cons, List.mem_singleton, List.not_mem_nil, or_false] at hopmem
      rcases hopmem with rfl | rfl | rfl | rfl | rfl | rfl <;>
        exact ⟨_, _, rfl, by decide⟩
    have hflag : e ++ op ++ v = e ++ c :: (t ++ v) := by simp [hct]
    have hmain := parseEventFlag_operator_eq e c (t ++ v) he hc
    rw [← hflag] at hmain
    rw [hmain]
    rcases hp : getEventFilterParts e (e ++ op ++ v) with ⟨parts, err⟩
    rw [hp] at hparts hfst
    simp only at hparts hfst
    subst hparts
    subst hfst
    simp only [hopv]
  · intro pre rest hpre hrest
    rw [parseEventFlag_operator_eq pre '!' rest hpre (by decide)]
    rcases hp : getEventFilterParts pre (pre ++ '!' :: rest) with ⟨parts, _ | err⟩
    · have hq : getOperatorAndValuesParts (pre ++ '!' :: rest) (pre.length : Int) =
          ({}, some (InvalidFilterFlagFormat (pre ++ '!' :: rest))) := by
        simp only [getOperatorAndValuesParts, Int.toNat_ofNat, List.drop_left]
        cases rest with
        | nil => rfl
        | cons x xs =>
          have hx : x ≠ '=' := fun e => hrest (by simp [e])
          split <;> simp_all
      simp only [hq]
    · have herr := getEventFilterParts_err pre (pre ++ '!' :: rest) err (by rw [hp])
      subst herr
      rfl

theorem parseEventFlag_operator_values_witness :
    (parseEventFlag "close.data.fd=5".toList =
        ([{ full := "close.data.fd=5".toList, eventFilter := "close.data.fd".toList,
            eventName := "close".toList, eventOptionType := "data".toList,
            eventOptionName := "fd".toList, operator := "=".toList, values := "5".toList,
            operatorAndValues := "=5".toList, filter := "data.fd=5".toList }], none)) ∧
    (parseEventFlag "openat.data.pathname!=/tmp/1,/bin/ls".toList =
        ([{ full := "openat.data.pathname!=/tmp/1,/bin/ls".toList,
            eventFilter := "openat.data.pathname".toList,
            eventName := "openat".toList, eventOptionType := "data".toList,
            eventOptionName := "pathname".toList, operator := "!=".toList,
            values := "/tmp/1,/bin/ls".toList,
            operatorAndValues := "!=/tmp/1,/bin/ls".toList,
            filter := "data.pathname!=/tmp/1,/bin/ls".toList }], none)) ∧
    (parseEventFlag "a.b!c".toList =
        ([], some (WrapError (InvalidFilterFlagFormat "a.b!c".toList)))) :=
  ⟨((parseEventFlag_operator_values "close.data.fd".toList "=".toList "5".toList
      (by decide) (by decide) (by decide) (by decide) (by decide)).1).trans (by decide),
   ((parseEventFlag_operator_values "openat.data.pathname".toList "!=".toList
      "/tmp/1,/bin/ls".toList
      (by decide) (by decide) (by decide) (by decide) (by decide)).1).trans (by decide),
   (parseEventFlag_operator_values "a.b".toList "=".toList []
      (by decide) (by decide) (by decide) (by decide) (by decide)).2
      "a.b".toList "c".toList (by decide) (by decide)⟩

/-! ## The three ways `parseEventFlag` succeeds -/

/-- A successful `parseEventFlag` went through the name loop, through the
dotted branch, or through the operator branch; each case fixes the result. -/
theorem parseEventFlag_ok_cases (flag : GoString) (ds : List eventFlag)
    (hok : parseEventFlag flag = (ds, none)) :
    (flag ≠ [] ∧ (∀ c ∈ flag, c ∉ operatorChars) ∧ '.' ∉ flag ∧
      (Split flag ',').any nameRejected = false ∧ ds = (Split flag ',').map nameFlag) ∨
    ((∀ c ∈ flag, c ∉ operatorChars) ∧ '.' ∈ flag ∧
      (getEventFilterParts flag flag).2 = none ∧
      ds = [{ full := flag, eventFilter := flag,
              eventName := (Split flag '.').getD 0 [],
              eventOptionType := (Split flag '.').getD 1 [],
              eventOptionName := (Split flag '.').getD 2 [] }]) ∨
    (∃ pre c rest p, flag = pre ++ c :: rest ∧ (∀ x ∈ pre, x ∉ operatorChars) ∧
      c ∈ operatorChars ∧ (getEventFilterParts pre flag).2 = none ∧
      getOperatorAndValuesParts flag (pre.length : Int) = (p, none) ∧
      ds = [{ full := flag, eventFilter := pre,
              eventName := (Split pre '.').getD 0 [],
              eventOptionType := (Split pre '.').getD 1 [],
              eventOptionName := (Split pre '.').getD 2 [],
              operator := p.operator, values := p.values,
              operatorAndValues := p.operatorAndValues,
              filter := flag.drop (((Split pre '.').getD 0 []).length + 1) }]) := by
  have hne : flag ≠ [] := by
    rintro rfl
    simp [parseEventFlag] at hok
  by_cases hop : ∀ c ∈ flag, c ∉ operatorChars
  · by_cases hdot : '.' ∈ flag
    · right; left
      have hidx : IndexAny flag operatorChars = -1 := (IndexAny_eq_neg_one_iff _ _).mpr hop
      have hfst := getEventFilterParts_fst flag flag
      rcases hp : getEventFilterParts flag flag with ⟨parts, _ | err⟩
      · rw [hp] at hfst
        have hparts := hfst rfl
        simp only at hparts
        subst hparts
        simp only [parseEventFlag, hne, hidx, Contains, hdot, hp, if_false, if_true,
          decide_True, Prod.mk.injEq, and_true] at hok
        exact ⟨hop, hdot, rfl, hok.symm⟩
      · simp [parseEventFlag, hne, hidx, Contains, hdot, hp] at hok
    · left
      rw [parseEventFlag_eq_names flag hne hop hdot, parseEventNames_eq] at hok
      by_cases hany : (Split flag ',').any nameRejected = true
      · simp [hany] at hok
      · rw [Bool.not_eq_true] at hany
        simp only [hany, Bool.false_eq_true, if_false, List.nil_append, Prod.mk.injEq,
          and_true] at hok
        exact ⟨hne, hop, hdot, hany, hok.symm⟩
  · right; right
    have hex : ∃ c ∈ flag, c ∈ operatorChars := by
      by_contra hno
      exact hop (fun c hc hcc => hno ⟨c, hc, hcc⟩)
    obtain ⟨pre, c, rest, rfl, hpre, hc⟩ := exists_first_mem flag operatorChars hex
    rw [parseEventFlag_operator_eq pre c rest hpre hc] at hok
    have hfst := getEventFilterParts_fst pre (pre ++ c :: rest)
    rcases hp : getEventFilterParts pre (pre ++ c :: rest) with ⟨parts, _ | err⟩
    · rcases hq : getOperatorAndValuesParts (pre ++ c :: rest) (pre.length : Int) with
        ⟨p, _ | err⟩
      · rw [hp] at hfst
        have hparts := hfst rfl
        simp only at hparts
        subst hparts
        simp only [hp, hq, Prod.mk.injEq, and_true] at hok
        exact ⟨pre, c, rest, p, rfl, hpre, hc, by rw [hp], hq, hok.symm⟩
      · simp [hp, hq] at hok
    · simp [hp] at hok

theorem getOperatorAndValuesParts_operator_ne_nil (flag : GoString) (idx : Int)
    (p : operatorAndValuesParts) (h : getOperatorAndValuesParts flag idx = (p, none)) :
    p.operator ≠ [] := by
  revert h
  simp only [getOperatorAndValuesParts]
  split <;> simp <;> intro h <;> subst h <;> simp

/-- The first segment of a filter that `getEventFilterParts` accepts is not
empty, and neither is the second. -/
theorem getEventFilterParts_segments_ne_nil (filter flag : GoString)
    (h : (getEventFilterParts filter flag).2 = none) :
    (Split filter '.').getD 0 [] ≠ [] ∧ (Split filter '.').getD 1 [] ≠ [] := by
  obtain ⟨hlen, hseg⟩ := (getEventFilterParts_none_iff filter flag).mp h
  rcases hs : Split filter '.' with _ | ⟨a, _ | ⟨b, r⟩⟩
  · simp [hs] at hlen
  · simp [hs] at hlen
  · rw [hs] at hseg
    exact ⟨(hseg a (by simp)).1, (hseg b (by simp)).1⟩

/-! ## C11, C12, C13, C14 -/

/-- C11: a format error raised by the name-list validation or by
`getEventFilterParts` carries the entire flag passed to `parseEventFlag`: on a
flag without operator character any `InvalidFilterFlagFormat x` has `x = flag`;
`getEventFilterParts filter flag` only ever fails with
`InvalidFilterFlagFormat flag`, whatever `filter` is; and when the expression
before the first operator character is rejected, `parseEventFlag` returns
`InvalidFilterFlagFormat flag`, not the expression. -/
theorem parseEventFlag_format_error_carries_flag (flag : GoString) :
    (∀ x, (∀ c ∈ flag, c ∉ operatorChars) →
      (parseEventFlag flag).2 = some (WrapError (InvalidFilterFlagFormat x)) → x = flag) ∧
    (∀ filter err, (getEventFilterParts filter flag).2 = some err →
      err = InvalidFilterFlagFormat flag) ∧
    (∀ pre c rest, flag = pre ++ c :: rest → (∀ x ∈ pre, x ∉ operatorChars) →
      c ∈ operatorChars → (getEventFilterParts pre flag).2 ≠ none →
      parseEventFlag flag = ([], some (WrapError (InvalidFilterFlagFormat flag)))) := by
  refine ⟨?_, fun filter err h => getEventFilterParts_err filter flag err h, ?_⟩
  · intro x hop herr
    by_cases hne : flag = []
    · subst hne
      simp [parseEventFlag] at herr
    · by_cases hdot : '.' ∈ flag
      · have hidx : IndexAny flag operatorChars = -1 := (IndexAny_eq_neg_one_iff _ _).mpr hop
        rcases hp : getEventFilterParts flag flag with ⟨parts, _ | err⟩
        · simp [parseEventFlag, hne, hidx, Contains, hdot, hp] at herr
        · have he := getEventFilterParts_err flag flag err (by rw [hp])
          subst he
          simp only [parseEventFlag, hne, hidx, Contains, hdot, hp, if_false, if_true,
            decide_True, Option.some.injEq, WrapError.injEq,
            InvalidFilterFlagFormat.injEq] at herr
          exact herr.symm
      · rw [parseEventFlag_eq_names flag hne hop hdot, parseEventNames_eq] at herr
        by_cases hany : (Split flag ',').any nameRejected = true
        · simp only [hany, if_true, Option.some.injEq, WrapError.injEq,
            InvalidFilterFlagFormat.injEq] at herr
          exact herr.symm
        · rw [Bool.not_eq_true] at hany
          simp [hany] at herr
  · intro pre c rest hflag hpre hc hfail
    subst hflag
    rw [parseEventFlag_operator_eq pre c rest hpre hc]
    rcases hp : getEventFilterParts pre (pre ++ c :: rest) with ⟨parts, _ | err⟩
    · rw [hp] at hfail
      exact absurd rfl hfail
    · have he := getEventFilterParts_err pre (pre ++ c :: rest) err (by rw [hp])
      subst he
      rfl

theorem parseEventFlag_format_error_carries_flag_witness :
    parseEventFlag "a.b.c.d=5".toList =
      ([], some (WrapError (InvalidFilterFlagFormat "a.b.c.d=5".toList))) :=
  (parseEventFlag_format_error_carries_flag "a.b.c.d=5".toList).2.2
    "a.b.c.d".toList '=' "5".toList (by decide) (by decide) (by decide) (by decide)

/-- C12 (fails on the code): the flag `-` parses to a descriptor whose
`eventName` is empty. This is the only way: a returned descriptor has an empty
`eventName` exactly when it comes from a comma-separated element that is the
lone `-`. -/
theorem parseEventFlag_dash_empty_eventName :
    parseEventFlag "-".toList =
      ([{ full := "-".toList, eventFilter := [], eventName := [], eventOptionType := [],
          eventOptionName := [], operator := "-".toList, values := [],
          operatorAndValues := [], filter := [] }], none) ∧
    (∀ (flag : GoString) (ds : List eventFlag), parseEventFlag flag = (ds, none) →
      ∀ d ∈ ds, (d.eventName = [] ↔ d.full = ['-'])) := by
  refine ⟨by decide, ?_⟩
  intro flag ds hok d hd
  rcases parseEventFlag_ok_cases flag ds hok with
    ⟨_, _, _, hany, rfl⟩ | ⟨hop, hdot, hparts, rfl⟩ | ⟨pre, c, rest, p, rfl, hpre, hc, hparts, _, rfl⟩
  · rw [List.mem_map] at hd
    obtain ⟨e, he, rfl⟩ := hd
    have hrej := List.any_eq_false.mp hany e he
    have hne : e ≠ [] := by
      intro h
      apply hrej
      simp [nameRejected, h]
    cases e with
    | nil => exact absurd rfl hne
    | cons a t =>
      by_cases ha : a = '-'
      · subst ha
        simp [nameFlag]
      · simp [nameFlag, ha]
  · simp only [List.mem_singleton] at hd
    subst hd
    have h0 := (getEventFilterParts_segments_ne_nil flag flag hparts).1
    simp only [h0, false_iff]
    intro hfull
    rw [hfull] at hdot
    simp at hdot
  · simp only [List.mem_singleton] at hd
    subst hd
    have h0 := (getEventFilterParts_segments_ne_nil pre _ hparts).1
    simp only [h0, false_iff]
    intro hfull
    have hmem : c ∈ ['-'] := by rw [← hfull]; simp
    simp only [List.mem_singleton] at hmem
    subst hmem
    simp at hc

/-- C13: in a successful parse, a descriptor with an empty operator has empty
`values` and empty `operatorAndValues`. -/
theorem parseEventFlag_no_operator_no_values (flag : GoString) (ds : List eventFlag)
    (hok : parseEventFlag flag = (ds, none)) :
    ∀ d ∈ ds, d.operator = [] → d.values = [] ∧ d.operatorAndValues = [] := by
  intro d hd hopr
  rcases parseEventFlag_ok_cases flag ds hok with
    ⟨_, _, _, _, rfl⟩ | ⟨_, _, _, rfl⟩ | ⟨pre, c, rest, p, rfl, _, _, _, hq, rfl⟩
  · rw [List.mem_map] at hd
    obtain ⟨e, _, rfl⟩ := hd
    unfold nameFlag
    split_ifs <;> simp
  · simp only [List.mem_singleton] at hd
    subst hd
    simp
  · simp only [List.mem_singleton] at hd
    subst hd
    exact absurd hopr (getOperatorAndValuesParts_operator_ne_nil _ _ p hq)

theorem parseEventFlag_no_operator_no_values_witness :
    parseEventFlag "fs,-open".toList =
      ([nameFlag "fs".toList, nameFlag "-open".toList], none) ∧
    (nameFlag "fs".toList).values = [] ∧ (nameFlag "fs".toList).operatorAndValues = [] :=
  ⟨by decide,
   parseEventFlag_no_operator_no_values "fs,-open".toList
     [nameFlag "fs".toList, nameFlag "-open".toList] (by decide)
     (nameFlag "fs".toList) (by simp) (by decide)⟩

/-- C14: in a successful parse, a descriptor with an empty `eventOptionType` has
an empty `eventOptionName`; and a descriptor built from a dotted expression
(the flag has a `.` or an operator character) has a non-empty
`eventOptionType`. -/
theorem parseEventFlag_optionType_optionName (flag : GoString) (ds : List eventFlag)
    (hok : parseEventFlag flag = (ds, none)) :
    ∀ d ∈ ds, (d.eventOptionType = [] → d.eventOptionName = []) ∧
      (('.' ∈ flag ∨ ∃ c ∈ flag, c ∈ operatorChars) → d.eventOptionType ≠ []) := by
  intro d hd
  rcases parseEventFlag_ok_cases flag ds hok with
    ⟨_, hop, hdot, _, rfl⟩ | ⟨_, _, hparts, rfl⟩ | ⟨pre, c, rest, p, rfl, _, _, hparts, _, rfl⟩
  · rw [List.mem_map] at hd
    obtain ⟨e, _, rfl⟩ := hd
    refine ⟨?_, ?_⟩
    · intro _
      unfold nameFlag
      split_ifs <;> rfl
    · rintro (h | ⟨c, hc, hcc⟩)
      · exact absurd h hdot
      · exact absurd hcc (hop c hc)
  · simp only [List.mem_singleton] at hd
    subst hd
    have h1 := (getEventFilterParts_segments_ne_nil flag flag hparts).2
    exact ⟨fun h => absurd h h1, fun _ => h1⟩
  · simp only [List.mem_singleton] at hd
    subst hd
    have h1 := (getEventFilterParts_segments_ne_nil pre _ hparts).2
    exact ⟨fun h => absurd h h1, fun _ => h1⟩

theorem parseEventFlag_optionType_optionName_witness :
    parseEventFlag "a.b".toList =
      ([{ full := "a.b".toList, eventFilter := "a.b".toList, eventName := "a".toList,
          eventOptionType := "b".toList }], none) ∧
    ({ full := "a.b".toList, eventFilter := "a.b".toList, eventName := "a".toList,
       eventOptionType := "b".toList } : eventFlag).eventOptionType ≠ [] :=
  ⟨by decide,
   (parseEventFlag_optionType_optionName "a.b".toList
     [{ full := "a.b".toList, eventFilter := "a.b".toList, eventName := "a".toList,
        eventOptionType := "b".toList }] (by decide)
     { full := "a.b".toList, eventFilter := "a.b".toList, eventName := "a".toList,
       eventOptionType := "b".toList } (by simp)).2 (Or.inl (by decide))⟩

/-! ## Splitting and joining -/

theorem Join_cons_cons (a b : GoString) (rest : List GoString) (sep : Char) :
    Join (a :: b :: rest) sep = a ++ sep :: Join (b :: rest) sep := rfl

theorem Join_cons_char (c : Char) (p : GoString) (ps : List GoString) (sep : Char) :
    Join ((c :: p) :: ps) sep = c :: Join (p :: ps) sep := by
  cases ps with
  | nil => rfl
  | cons q qs => simp [Join]

/-- Joining the pieces of a split gives the string back. -/
theorem Join_Split (s : GoString) (sep : Char) : Join (Split s sep) sep = s := by
  induction s with
  | nil => rfl
  | cons c cs ih =>
    by_cases hc : c = sep
    · subst hc
      rw [Split_cons_sep]
      rcases hs : Split cs c with _ | ⟨q, qs⟩
      · exact absurd hs (Split_ne_nil _ _)
      · rw [hs] at ih
        rw [Join_cons_cons, ih]
        rfl
    · obtain ⟨p, ps, hp, hsplit⟩ := Split_cons_ne c cs sep hc
      rw [hsplit, Join_cons_char]
      rw [hp] at ih
      rw [ih]

/-- A string whose split has at least two pieces starts with the first piece
and the separator, followed by the join of the other pieces. -/
theorem eq_of_Split_cons_cons (s : GoString) (sep : Char) (a b : GoString)
    (r : List GoString) (h : Split s sep = a :: b :: r) :
    s = a ++ sep :: Join (b :: r) sep := by
  have hj := Join_Split s sep
  rw [h, Join_cons_cons] at hj
  exact hj.symm

theorem Join_cons_eq_append (b : GoString) (r : List GoString) (sep : Char) :
    ∃ t, Join (b :: r) sep = b ++ t := by
  cases r with
  | nil => exact ⟨[], by simp [Join]⟩
  | cons q qs => exact ⟨sep :: Join (q :: qs) sep, rfl⟩

theorem getD_zero_mem_Split (s : GoString) (sep : Char) :
    (Split s sep).getD 0 [] ∈ Split s sep := by
  rcases hs : Split s sep with _ | ⟨a, r⟩
  · exact absurd hs (Split_ne_nil _ _)
  · simp

theorem nameFlag_full (e : GoString) : (nameFlag e).full = e := by
  unfold nameFlag
  split_ifs <;> rfl

/-- A filter that `getEventFilterParts` accepts is its first segment, a `.`,
its second segment and a remainder. -/
theorem accepted_filter_shape (filter flag : GoString)
    (h : (getEventFilterParts filter flag).2 = none) :
    ∃ t, filter = (Split filter '.').getD 0 [] ++ '.' :: ((Split filter '.').getD 1 [] ++ t) := by
  obtain ⟨hlen, _⟩ := (getEventFilterParts_none_iff filter flag).mp h
  rcases hs : Split filter '.' with _ | ⟨a, _ | ⟨b, r⟩⟩
  · simp [hs] at hlen
  · simp [hs] at hlen
  · obtain ⟨t, ht⟩ := Join_cons_eq_append b r '.'
    refine ⟨t, ?_⟩
    have := eq_of_Split_cons_cons filter '.' a b r hs
    rw [ht] at this
    simpa using this

/-- The `filter` field of the operator branch: the flag from the option type
onward. -/
theorem operator_branch_filter (pre : GoString) (c : Char) (rest flag : GoString)
    (hparts : (getEventFilterParts pre flag).2 = none) :
    ∃ t, (pre ++ c :: rest).drop (((Split pre '.').getD 0 []).length + 1) =
        (Split pre '.').getD 1 [] ++ t ∧
      (Split pre '.').getD 0 [] ++
          '.' :: (pre ++ c :: rest).drop (((Split pre '.').getD 0 []).length + 1) =
        pre ++ c :: rest := by
  obtain ⟨t, ht⟩ := accepted_filter_shape pre flag hparts
  generalize (Split pre '.').getD 0 [] = a at ht ⊢
  generalize (Split pre '.').getD 1 [] = b at ht ⊢
  subst ht
  have hdrop : (a ++ '.' :: (b ++ t) ++ c :: rest).drop (a.length + 1) = b ++ (t ++ c :: rest) := by
    have : a ++ '.' :: (b ++ t) ++ c :: rest = (a ++ ['.']) ++ (b ++ (t ++ c :: rest)) := by
      simp
    rw [this]
    have hl : a.length + 1 = (a ++ ['.']).length := by simp
    rw [hl, List.drop_left]
  exact ⟨t ++ c :: rest, hdrop, by rw [hdrop]; simp⟩

/-! ## C15, C16 -/

/-- C15: when a flag with an operator character parses, exactly one descriptor
is returned, its `full` is the flag, and its `filter` is the flag from the
option type onward: `eventName ++ "." ++ filter = flag` and `filter` begins
with `eventOptionType`. -/
theorem parseEventFlag_operator_filter (flag : GoString) (ds : List eventFlag)
    (hop : ∃ c ∈ flag, c ∈ operatorChars) (hok : parseEventFlag flag = (ds, none)) :
    ∃ d, ds = [d] ∧ d.full = flag ∧ d.eventName ++ '.' :: d.filter = flag ∧
      ∃ t, d.filter = d.eventOptionType ++ t := by
  rcases parseEventFlag_ok_cases flag ds hok with
    ⟨_, hno, _, _, _⟩ | ⟨hno, _, _, _⟩ | ⟨pre, c, rest, p, rfl, _, _, hparts, _, rfl⟩
  · obtain ⟨c, hc, hcc⟩ := hop
    exact absurd hcc (hno c hc)
  · obtain ⟨c, hc, hcc⟩ := hop
    exact absurd hcc (hno c hc)
  · obtain ⟨t, ht, hflag⟩ := operator_branch_filter pre c rest _ hparts
    exact ⟨_, rfl, rfl, hflag, t, ht⟩

theorem parseEventFlag_operator_filter_witness :
    ∃ d, [({ full := "openat.data.pathname=/etc/*".toList,
             eventFilter := "openat.data.pathname".toList,
             eventName := "openat".toList, eventOptionType := "data".toList,
             eventOptionName := "pathname".toList, operator := "=".toList,
             values := "/etc/*".toList, operatorAndValues := "=/etc/*".toList,
             filter := "data.pathname=/etc/*".toList } : eventFlag)] = [d] ∧
      d.full = "openat.data.pathname=/etc/*".toList ∧
      d.eventName ++ '.' :: d.filter = "openat.data.pathname=/etc/*".toList ∧
      ∃ t, d.filter = d.eventOptionType ++ t :=
  parseEventFlag_operator_filter "openat.data.pathname=/etc/*".toList _
    (by decide) (by decide)

/-- C16 as stated fails: `security_file_open.scope.container` parses to a
descriptor with option type `scope` whose `filter` is empty, not
`scope.container`. -/
theorem dotted_flag_filter_empty :
    parseEventFlag "security_file_open.scope.container".toList =
      ([{ full := "security_file_open.scope.container".toList,
          eventFilter := "security_file_open.scope.container".toList,
          eventName := "security_file_open".toList,
          eventOptionType := "scope".toList,
          eventOptionName := "container".toList,
          operator := [], values := [], operatorAndValues := [], filter := [] }], none) ∧
    "security_file_open.scope.container".toList.drop ("security_file_open".toList.length + 1) =
      "scope.container".toList ∧
    (∃ d ∈ (parseEventFlag "security_file_open.scope.container".toList).1,
      d.eventOptionType ≠ [] ∧
      d.filter ≠ "security_file_open.scope.container".toList.drop (d.eventName.length + 1)) := by
  decide

/-- C16 (amended): in a successful parse, a descriptor with a non-empty
`eventOptionType` has, when the flag contains an operator character, `filter`
equal to the flag with the leading `eventName` and the following `.` stripped;
when the flag contains no operator character its `filter` is empty. -/
theorem parseEventFlag_filter_field (flag : GoString) (ds : List eventFlag)
    (hok : parseEventFlag flag = (ds, none)) :
    ∀ d ∈ ds, d.eventOptionType ≠ [] →
      ((∃ c ∈ flag, c ∈ operatorChars) →
        d.filter = flag.drop (d.eventName.length + 1) ∧
        d.eventName ++ '.' :: d.filter = flag) ∧
      ((∀ c ∈ flag, c ∉ operatorChars) → d.filter = []) := by
  intro d hd htype
  rcases parseEventFlag_ok_cases flag ds hok with
    ⟨_, hno, _, _, rfl⟩ | ⟨hno, _, _, rfl⟩ | ⟨pre, c, rest, p, rfl, _, hc, hparts, _, rfl⟩
  · rw [List.mem_map] at hd
    obtain ⟨e, _, rfl⟩ := hd
    exfalso
    apply htype
    unfold nameFlag
    split_ifs <;> rfl
  · simp only [List.mem_singleton] at hd
    subst hd
    refine ⟨?_, fun _ => rfl⟩
    rintro ⟨c, hc, hcc⟩
    exact absurd hcc (hno c hc)
  · simp only [List.mem_singleton] at hd
    subst hd
    obtain ⟨t, _, hflag⟩ := operator_branch_filter pre c rest _ hparts
    refine ⟨fun _ => ⟨rfl, hflag⟩, ?_⟩
    intro hno
    exact absurd hc (hno c (by simp))

theorem parseEventFlag_filter_field_witness :
    parseEventFlag "close.data.fd=5".toList =
      ([{ full := "close.data.fd=5".toList, eventFilter := "close.data.fd".toList,
          eventName := "close".toList, eventOptionType := "data".toList,
          eventOptionName := "fd".toList, operator := "=".toList, values := "5".toList,
          operatorAndValues := "=5".toList, filter := "data.fd=5".toList }], none) ∧
    "data.fd=5".toList = "close.data.fd=5".toList.drop ("close".toList.length + 1) ∧
    "close".toList ++ '.' :: "data.fd=5".toList = "close.data.fd=5".toList :=
  ⟨by decide,
   ((parseEventFlag_filter_field "close.data.fd=5".toList
      [{ full := "close.data.fd=5".toList, eventFilter := "close.data.fd".toList,
         eventName := "close".toList, eventOptionType := "data".toList,
         eventOptionName := "fd".toList, operator := "=".toList, values := "5".toList,
         operatorAndValues := "=5".toList, filter := "data.fd=5".toList }]
      (by decide)
      { full := "close.data.fd=5".toList, eventFilter := "close.data.fd".toList,
        eventName := "close".toList, eventOptionType := "data".toList,
        eventOptionName := "fd".toList, operator := "=".toList, values := "5".toList,
        operatorAndValues := "=5".toList, filter := "data.fd=5".toList }
      (by simp) (by decide)).1 (by decide))⟩

/-! ## C17, C18, C20 -/

/-- C17 as stated fails: `open.retval` parses to a descriptor whose option type
is `retval`, which is neither empty nor `scope` nor `data`. -/
theorem parseEventFlag_optionType_retval :
    parseEventFlag "open.retval".toList =
      ([{ full := "open.retval".toList, eventFilter := "open.retval".toList,
          eventName := "open".toList, eventOptionType := "retval".toList,
          eventOptionName := [], operator := [], values := [], operatorAndValues := [],
          filter := [] }], none) ∧
    (∃ d ∈ (parseEventFlag "open.retval".toList).1,
      d.eventOptionType ≠ [] ∧ d.eventOptionType ≠ "scope".toList ∧
      d.eventOptionType ≠ "data".toList) := by
  decide

/-- C17 (amended): in a successful parse, the option type of a descriptor is
either empty, or it is the second dot-separated segment of the descriptor's
`eventFilter`, non-empty and unpadded; nothing else restricts it. -/
theorem parseEventFlag_optionType_segment (flag : GoString) (ds : List eventFlag)
    (hok : parseEventFlag flag = (ds, none)) :
    ∀ d ∈ ds, d.eventOptionType = [] ∨
      (d.eventOptionType = (Split d.eventFilter '.').getD 1 [] ∧ d.eventOptionType ≠ [] ∧
        hasLeadingOrTrailingWhitespace d.eventOptionType = false) := by
  have key : ∀ filter fl : GoString, (getEventFilterParts filter fl).2 = none →
      (Split filter '.').getD 1 [] ≠ [] ∧
      hasLeadingOrTrailingWhitespace ((Split filter '.').getD 1 []) = false := by
    intro filter fl h
    obtain ⟨hlen, hseg⟩ := (getEventFilterParts_none_iff filter fl).mp h
    rcases hs : Split filter '.' with _ | ⟨a, _ | ⟨b, r⟩⟩
    · simp [hs] at hlen
    · simp [hs] at hlen
    · rw [hs] at hseg
      exact hseg b (by simp)
  intro d hd
  rcases parseEventFlag_ok_cases flag ds hok with
    ⟨_, _, _, _, rfl⟩ | ⟨_, _, hparts, rfl⟩ | ⟨pre, c, rest, p, rfl, _, _, hparts, _, rfl⟩
  · rw [List.mem_map] at hd
    obtain ⟨e, _, rfl⟩ := hd
    left
    unfold nameFlag
    split_ifs <;> rfl
  · simp only [List.mem_singleton] at hd
    subst hd
    exact Or.inr ⟨rfl, key flag flag hparts⟩
  · simp only [List.mem_singleton] at hd
    subst hd
    exact Or.inr ⟨rfl, key pre _ hparts⟩

theorem parseEventFlag_optionType_segment_witness :
    parseEventFlag "open.retval".toList =
      ([{ full := "open.retval".toList, eventFilter := "open.retval".toList,
          eventName := "open".toList, eventOptionType := "retval".toList }], none) ∧
    ("retval".toList = [] ∨
      ("retval".toList = (Split "open.retval".toList '.').getD 1 [] ∧ "retval".toList ≠ [] ∧
        hasLeadingOrTrailingWhitespace "retval".toList = false)) :=
  ⟨by decide,
   parseEventFlag_optionType_segment "open.retval".toList
     [{ full := "open.retval".toList, eventFilter := "open.retval".toList,
        eventName := "open".toList, eventOptionType := "retval".toList }] (by decide)
     { full := "open.retval".toList, eventFilter := "open.retval".toList,
       eventName := "open".toList, eventOptionType := "retval".toList } (by simp)⟩

/-- C18: in a successful parse, the `full` fields of the descriptors joined with
`,` in result order give back the flag: a flag with a `.` or an operator
character yields one descriptor whose `full` is the flag, and a name list
yields one descriptor per comma-separated element whose `full` is the
element. -/
theorem parseEventFlag_full_join (flag : GoString) (ds : List eventFlag)
    (hok : parseEventFlag flag = (ds, none)) :
    Join (ds.map (fun d => d.full)) ',' = flag ∧
    (('.' ∈ flag ∨ ∃ c ∈ flag, c ∈ operatorChars) → ∃ d, ds = [d] ∧ d.full = flag) ∧
    (('.' ∉ flag ∧ ∀ c ∈ flag, c ∉ operatorChars) →
      ds.map (fun d => d.full) = Split flag ',') := by
  rcases parseEventFlag_ok_cases flag ds hok with
    ⟨_, hno, hdot, _, rfl⟩ | ⟨hno, hdot, _, rfl⟩ | ⟨pre, c, rest, p, rfl, _, hc, _, _, rfl⟩
  · have hmap : (List.map nameFlag (Split flag ',')).map (fun d => d.full) = Split flag ',' := by
      rw [List.map_map]
      conv_rhs => rw [← List.map_id (Split flag ',')]
      apply List.map_congr_left
      intro e _
      simp [nameFlag_full]
    refine ⟨by rw [hmap, Join_Split], ?_, fun _ => hmap⟩
    rintro (h | ⟨c, hc, hcc⟩)
    · exact absurd h hdot
    · exact absurd hcc (hno c hc)
  · refine ⟨rfl, fun _ => ⟨_, rfl, rfl⟩, ?_⟩
    rintro ⟨h, _⟩
    exact absurd hdot h
  · refine ⟨rfl, fun _ => ⟨_, rfl, rfl⟩, ?_⟩
    rintro ⟨_, h⟩
    exact absurd hc (h c (by simp))

theorem parseEventFlag_full_join_witness :
    Join ([nameFlag "fs".toList, nameFlag "-open".toList, nameFlag "-openat".toList].map
        (fun d => d.full)) ',' = "fs,-open,-openat".toList :=
  (parseEventFlag_full_join "fs,-open,-openat".toList
    [nameFlag "fs".toList, nameFlag "-open".toList, nameFlag "-openat".toList]
    (by decide)).1

/-- C20: in a successful parse, no `eventName` contains `.`, `=`, `!`, `<` or
`>`; and when the flag has neither `.` nor an operator character, no
`eventName` contains `,`. -/
theorem parseEventFlag_eventName_chars (flag : GoString) (ds : List eventFlag)
    (hok : parseEventFlag flag = (ds, none)) :
    ∀ d ∈ ds, (∀ x ∈ d.eventName, x ∉ ['.', '=', '!', '<', '>']) ∧
      (('.' ∉ flag ∧ ∀ c ∈ flag, c ∉ operatorChars) → ',' ∉ d.eventName) := by
  have seg0 : ∀ s : GoString, (∀ c ∈ s, c ∉ operatorChars) →
      ∀ x ∈ (Split s '.').getD 0 [], x ∉ ['.', '=', '!', '<', '>'] := by
    intro s hs x hx
    have hmem := getD_zero_mem_Split s '.'
    have hdot : x ≠ '.' := by
      rintro rfl
      exact not_mem_of_mem_Split s '.' _ hmem hx
    have hop := hs x (mem_of_mem_Split s '.' _ hmem x hx)
    simp only [List.mem_cons, List.mem_singleton, List.not_mem_nil, or_false, not_or] at hop ⊢
    exact ⟨hdot, hop⟩
  intro d hd
  rcases parseEventFlag_ok_cases flag ds hok with
    ⟨_, hno, hdot, _, rfl⟩ | ⟨hno, hdot, _, rfl⟩ | ⟨pre, c, rest, p, rfl, hpre, hc, _, _, rfl⟩
  · rw [List.mem_map] at hd
    obtain ⟨e, he, rfl⟩ := hd
    have hsub : ∀ x ∈ (nameFlag e).eventName, x ∈ e := by
      intro x hx
      unfold nameFlag at hx
      split_ifs at hx
      · exact List.mem_of_mem_drop hx
      · exact hx
    refine ⟨?_, ?_⟩
    · intro x hx
      have hxe := hsub x hx
      have hxf := mem_of_mem_Split flag ',' e he x hxe
      have hop := hno x hxf
      have hxdot : x ≠ '.' := by
        rintro rfl
        exact hdot hxf
      simp only [List.mem_cons, List.mem_singleton, List.not_mem_nil, or_false, not_or] at hop ⊢
      exact ⟨hxdot, hop⟩
    · intro _ hcomma
      exact not_mem_of_mem_Split flag ',' e he (hsub _ hcomma)
  · simp only [List.mem_singleton] at hd
    subst hd
    refine ⟨seg0 flag hno, ?_⟩
    rintro ⟨h, _⟩
    exact absurd hdot h
  · simp only [List.mem_singleton] at hd
    subst hd
    refine ⟨seg0 pre hpre, ?_⟩
    rintro ⟨_, h⟩
    exact absurd hc (h c (by simp))

theorem parseEventFlag_eventName_chars_witness :
    parseEventFlag "fs,-open".toList =
      ([nameFlag "fs".toList, nameFlag "-open".toList], none) ∧
    ',' ∉ (nameFlag "-open".toList).eventName :=
  ⟨by decide,
   (parseEventFlag_eventName_chars "fs,-open".toList
     [nameFlag "fs".toList, nameFlag "-open".toList] (by decide)
     (nameFlag "-open".toList) (by simp)).2 ⟨by decide, by decide⟩⟩

/-! ## C19: no index or slice is out of range -/

theorem getEventFilterPartsChecked_eq (filter flag : GoString) :
    getEventFilterPartsChecked filter flag = some (getEventFilterParts filter flag) := by
  rcases h : Split filter '.' with _ | ⟨a, _ | ⟨b, _ | ⟨c, _ | ⟨d, r⟩⟩⟩⟩
  · exact absurd h (Split_ne_nil _ _)
  · by_cases ha : a = [] <;> simp [getEventFilterPartsChecked, getEventFilterParts, h, ha]
  · by_cases ha : a = [] <;> by_cases hb : b = [] <;>
      simp [getEventFilterPartsChecked, getEventFilterParts, h, ha, hb]
    split_ifs <;> simp
  · by_cases ha : a = [] <;> by_cases hb : b = [] <;> by_cases hc : c = [] <;>
      simp [getEventFilterPartsChecked, getEventFilterParts, h, ha, hb, hc]
    split_ifs <;> simp
  · by_cases ha : a = [] <;> by_cases hb : b = [] <;>
      simp [getEventFilterPartsChecked, getEventFilterParts, h, ha, hb]

theorem parseEventNamesChecked_eq (flag : GoString) (names : List GoString) :
    ∀ evtFlags : List eventFlag,
      parseEventNamesChecked flag names evtFlags =
        some (parseEventNames flag names evtFlags) := by
  induction names with
  | nil => intro evtFlags; rfl
  | cons e rest ih =>
    intro evtFlags
    cases e with
    | nil => simp [parseEventNamesChecked, parseEventNames]
    | cons a t =>
      by_cases h2 : hasLeadingOrTrailingWhitespace (a :: t) = true
      · simp [parseEventNamesChecked, parseEventNames, h2]
      · by_cases h3 : a = '-'
        · subst h3
          by_cases h4 : hasLeadingOrTrailingWhitespace t = true
          · simp [parseEventNamesChecked, parseEventNames, h2, h4, sliceFrom?]
          · simp [parseEventNamesChecked, parseEventNames, h2, h4, sliceFrom?, ih]
        · simp [parseEventNamesChecked, parseEventNames, h2, h3, ih]

/-- The slice `flag[len(name)+1:]` of the operator branch is in range. -/
theorem name_length_succ_le (pre : GoString) (c : Char) (rest flag : GoString)
    (hparts : (getEventFilterParts pre flag).2 = none) :
    ((Split pre '.').getD 0 []).length + 1 ≤ (pre ++ c :: rest).length := by
  obtain ⟨t, ht⟩ := accepted_filter_shape pre flag hparts
  have hlen := congrArg List.length ht
  simp only [List.length_append, List.length_cons] at hlen ⊢
  omega

theorem parseEventFlagChecked_eq (flag : GoString) :
    parseEventFlagChecked flag = some (parseEventFlag flag) := by
  by_cases hne : flag = []
  · subst hne
    simp [parseEventFlagChecked, parseEventFlag]
  · by_cases hop : ∀ c ∈ flag, c ∉ operatorChars
    · have hidx : IndexAny flag operatorChars = -1 := (IndexAny_eq_neg_one_iff _ _).mpr hop
      by_cases hdot : '.' ∈ flag
      · have hchk := getEventFilterPartsChecked_eq flag flag
        rcases hp : getEventFilterParts flag flag with ⟨parts, _ | err⟩
        · simp [parseEventFlagChecked, parseEventFlag, hne, hidx, Contains, hdot, hchk, hp]
        · simp [parseEventFlagChecked, parseEventFlag, hne, hidx, Contains, hdot, hchk, hp]
      · simp [parseEventFlagChecked, parseEventFlag, hne, hidx, Contains, hdot,
          parseEventNamesChecked_eq]
    · have hex : ∃ c ∈ flag, c ∈ operatorChars := by
        by_contra hno
        exact hop (fun c hc hcc => hno ⟨c, hc, hcc⟩)
      obtain ⟨pre, c, rest, rfl, hpre, hc⟩ := exists_first_mem flag operatorChars hex
      rw [parseEventFlag_operator_eq pre c rest hpre hc]
      have hidx := IndexAny_append pre c rest operatorChars hpre hc
      have hneg : ((pre.length : Nat) : Int) ≠ -1 := by omega
      have hslice : sliceTo? (pre ++ c :: rest) (pre.length : Int) = some pre := by
        have h1 : (pre.length : Int) ≤ ((pre ++ c :: rest).length : Int) := by
          simp only [List.length_append, List.length_cons]
          omega
        have h0 : (0 : Int) ≤ (pre.length : Int) := by omega
        simp only [sliceTo?, h0, h1, and_self, if_true, Int.toNat_ofNat, List.take_left]
      have hchk := getEventFilterPartsChecked_eq pre (pre ++ c :: rest)
      have hfst := getEventFilterParts_fst pre (pre ++ c :: rest)
      have hle := name_length_succ_le pre c rest (pre ++ c :: rest)
      rcases hp : getEventFilterParts pre (pre ++ c :: rest) with ⟨parts, _ | err⟩
      · rw [hp] at hfst hle
        have hparts := hfst rfl
        have hle2 := hle rfl
        simp only at hparts
        subst hparts
        have hfrom : sliceFrom? (pre ++ c :: rest) (((Split pre '.').getD 0 []).length + 1) =
            some ((pre ++ c :: rest).drop (((Split pre '.').getD 0 []).length + 1)) := by
          simp only [sliceFrom?, hle2, if_true]
        simp only [parseEventFlagChecked, hne, if_false, hidx, hneg, hslice, hchk, hp, hfrom]
        rcases getOperatorAndValuesParts (pre ++ c :: rest) (pre.length : Int) with
          ⟨p, _ | err⟩ <;> rfl
      · simp only [parseEventFlagChecked, hne, if_false, hidx, hneg, hslice, hchk, hp]

/-- C19: `parseEventFlag` and `getEventFilterParts` never index or slice out
of range. The bounds-checked variants, in which an index or slice out of range
gives `none`, always return the result of the unchecked functions:
`filterParts[0]` exists, `filterParts[1]` and `filterParts[2]` are read only
when the segment count allows it, `evtName[0]` is read only for a non-empty
element, `flag[:operatorIdx]` is taken only for a found index within the flag,
and `flag[len(name)+1:]` only when `len(name)+1 <= len(flag)`. -/
theorem parseEventFlag_no_out_of_range (filter flag : GoString) :
    getEventFilterPartsChecked filter flag = some (getEventFilterParts filter flag) ∧
    parseEventFlagChecked flag = some (parseEventFlag flag) ∧
    0 < (Split filter '.').length ∧
    (IndexAny flag operatorChars ≠ -1 →
      0 ≤ IndexAny flag operatorChars ∧ IndexAny flag operatorChars ≤ (flag.length : Int)) ∧
    (IndexAny flag operatorChars ≠ -1 →
      (getEventFilterParts (flag.take (IndexAny flag operatorChars).toNat) flag).2 = none →
      (getEventFilterParts (flag.take (IndexAny flag operatorChars).toNat) flag).1.name.length + 1
        ≤ flag.length) := by
  refine ⟨getEventFilterPartsChecked_eq filter flag, parseEventFlagChecked_eq flag,
    List.length_pos.mpr (Split_ne_nil _ _), ?_, ?_⟩
  · intro hidx
    have hex : ∃ c ∈ flag, c ∈ operatorChars := by
      by_contra hno
      exact hidx ((IndexAny_eq_neg_one_iff _ _).mpr (fun c hc hcc => hno ⟨c, hc, hcc⟩))
    obtain ⟨pre, c, rest, rfl, hpre, hc⟩ := exists_first_mem flag operatorChars hex
    rw [IndexAny_append pre c rest operatorChars hpre hc]
    simp only [List.length_append, List.length_cons]
    omega
  · intro hidx
    have hex : ∃ c ∈ flag, c ∈ operatorChars := by
      by_contra hno
      exact hidx ((IndexAny_eq_neg_one_iff _ _).mpr (fun c hc hcc => hno ⟨c, hc, hcc⟩))
    obtain ⟨pre, c, rest, rfl, hpre, hc⟩ := exists_first_mem flag operatorChars hex
    rw [IndexAny_append pre c rest operatorChars hpre hc]
    simp only [Int.toNat_ofNat, List.take_left]
    intro hparts
    rw [getEventFilterParts_fst pre _ hparts]
    exact name_length_succ_le pre c rest _ hparts

end flags
